import Mathlib

/-
Verification of the federation update logic of SampleDB
(sampledb/logic/federation/update.py) against its specification.

The module is embedded shallowly:
* Python/JSON values are `PyVal` (floats are outside the model).
* Fallible Python code becomes `Except FedErr`-valued functions; uncaught
  Python exceptions (TypeError, AttributeError, UnboundLocalError) are
  explicit `FedErr` constructors.
* Side effects (calls to the per-entity import functions, the watermark
  update and the two HTTP fetches) are recorded as an explicit `Event`
  trace.  Entity parsers, the two fetch results, the configuration value
  FEDERATION_UUID and utcnow are abstracted into a `FedEnv` record, since
  the parser/importer modules are opaque collaborators of update.py.
* Error message payloads are modelled by the literal message text of the
  source without the Python `.format(...)` value interpolation.
-/

set_option linter.unusedVariables false

namespace Federation

/-- Python-style JSON values as handled by the federation update module.
`null` stands for Python `None` (and JSON null); floats are outside this
model. -/
inductive PyVal where
  | null
  | bool (b : Bool)
  | int (n : Int)
  | str (s : String)
  | list (xs : List PyVal)
  | dict (entries : List (String × PyVal))

/-- Outcomes of Python `int(x)`: `valueErr` models ValueError (a string that
does not parse), `typeErr` models TypeError (a value of a type `int()`
rejects, such as a list, dict or None). -/
inductive PyNumErr where
  | valueErr
  | typeErr
deriving DecidableEq

/-- Whitespace stripped by Python `int()` around a numeric string. -/
def isPySpace (c : Char) : Bool :=
  c == ' ' || c == '\t' || c == '\n' || c == '\r'

def digitsValAux : Nat → List Char → Option Nat
  | acc, [] => some acc
  | acc, c :: cs =>
    if c.isDigit then digitsValAux (acc * 10 + (c.toNat - '0'.toNat)) cs
    else Option.none

/-- Value of a nonempty all-digit character list. -/
def digitsVal : List Char → Option Nat
  | [] => Option.none
  | c :: cs => digitsValAux 0 (c :: cs)

/-- Python `int(s)` on a string: optional surrounding whitespace, optional
sign, decimal digits (digit-group underscores are not modelled). -/
def pyStrToInt (s : String) : Option Int :=
  let cs := (((s.toList.dropWhile isPySpace).reverse).dropWhile isPySpace).reverse
  match cs with
  | '-' :: rest => (digitsVal rest).map (fun n => -(n : Int))
  | '+' :: rest => (digitsVal rest).map (fun n => (n : Int))
  | _ => (digitsVal cs).map (fun n => (n : Int))

/-- Python `int(x)` on a JSON value. -/
def pyInt : PyVal → Except PyNumErr Int
  | PyVal.int n => Except.ok n
  | PyVal.bool b => Except.ok (if b then 1 else 0)
  | PyVal.str s =>
    match pyStrToInt s with
    | some n => Except.ok n
    | Option.none => Except.error PyNumErr.valueErr
  | _ => Except.error PyNumErr.typeErr

/-- Error kinds raised by the federation update module.  The first six
model the errors of sampledb.logic.errors used by update.py;
`cyclicLocation` models the cyclic-dependency error of the location graph
check; `unboundLocal`, `typeError` and `attributeError` model the
corresponding uncaught Python exceptions. -/
inductive FedErr where
  | missingComponentAddress
  | unauthorizedRequest
  | requestServer
  | invalidJSON
  | invalidDataExport (msg : String)
  | componentNotConfiguredForFederation
  | cyclicLocation
  | unboundLocal
  | typeError
  | attributeError
deriving DecidableEq

/-- A federation component (remote peer), with the attributes update.py
reads. -/
structure Component where
  uuid : String
  address : Option String
deriving DecidableEq

/-- Python `dict.get(key)` on an entries list: the value if the key is
present, None otherwise. -/
def dictGet : List (String × PyVal) → String → PyVal
  | [], _ => PyVal.null
  | (k', v) :: rest, k => if k' = k then v else dictGet rest k

/-- Python `x.get(key)` on an arbitrary value: AttributeError unless `x` is
a dict. -/
def pyGetE : PyVal → String → Except FedErr PyVal
  | PyVal.dict es, k => Except.ok (dictGet es k)
  | _, _ => Except.error FedErr.attributeError

/-- Python `v == s` for a string `s`: true exactly for the equal string. -/
def pyEqStr (v : PyVal) (s : String) : Bool :=
  match v with
  | PyVal.str t => t == s
  | _ => false

/-- Python `v is None`. -/
def PyVal.isNull : PyVal → Bool
  | PyVal.null => true
  | _ => false

def PROTOCOL_VERSION_MAJOR : Int := 0

def PROTOCOL_VERSION_MINOR : Int := 1

/-- The protocol-version part of `_validate_header` (update.py lines
73-80), applied to the major and minor values of the header: missing
values and ValueError from `int()` become InvalidDataExportError, a
TypeError from `int()` escapes uncaught, and a supported version requires
the advertised (major, minor) not to exceed (0, 1). -/
def _validate_protocol_version (a b : PyVal) : Except FedErr Unit :=
  if a.isNull || b.isNull then
    Except.error (FedErr.invalidDataExport "Invalid protocol version")
  else
    match pyInt a with
    | Except.error PyNumErr.valueErr =>
      Except.error (FedErr.invalidDataExport "Invalid protocol version")
    | Except.error PyNumErr.typeErr => Except.error FedErr.typeError
    | Except.ok major =>
      match pyInt b with
      | Except.error PyNumErr.valueErr =>
        Except.error (FedErr.invalidDataExport "Invalid protocol version")
      | Except.error PyNumErr.typeErr => Except.error FedErr.typeError
      | Except.ok minor =>
        if major > PROTOCOL_VERSION_MAJOR ∨
            (major ≤ PROTOCOL_VERSION_MAJOR ∧ minor > PROTOCOL_VERSION_MINOR) then
          Except.error (FedErr.invalidDataExport "Unsupported protocol version")
        else Except.ok ()

/-- Model of `_validate_header` (update.py lines 68-82): checks the peer
UUID and the protocol version of a payload header; a header of None is not
checked at all. -/
def _validate_header (header : PyVal) (component : Component) : Except FedErr Unit :=
  match header with
  | PyVal.null => Except.ok ()
  | _ =>
    match pyGetE header "db_uuid" with
    | Except.error e => Except.error e
    | Except.ok dbUuid =>
      if pyEqStr dbUuid component.uuid then
        match pyGetE header "protocol_version" with
        | Except.error e => Except.error e
        | Except.ok pv =>
          match pv with
          | PyVal.null => Except.error (FedErr.invalidDataExport "Missing protocol_version.")
          | _ =>
            match pyGetE pv "major" with
            | Except.error e => Except.error e
            | Except.ok a =>
              match pyGetE pv "minor" with
              | Except.error e => Except.error e
              | Except.ok b => _validate_protocol_version a b
      else
        Except.error (FedErr.invalidDataExport
          "UUID of exporting database does not match expected UUID.")

/-- An HTTP response as observed by `get`: the status code and the decoded
JSON body (None when the body is not valid JSON). -/
structure HttpResponse where
  status_code : Nat
  json_body : Option PyVal

/-- Model of `get` (update.py lines 39-61): checks the component address
before any request, then maps the response status and body to a result.
Authentication headers and the last_sync_timestamp query parameter do not
influence the returned value and are not modelled. -/
def get (component : Component) (resp : HttpResponse) : Except FedErr PyVal :=
  match component.address with
  | Option.none => Except.error FedErr.missingComponentAddress
  | some _ =>
    if resp.status_code = 401 then Except.error FedErr.unauthorizedRequest
    else if resp.status_code = 500 ∨ resp.status_code = 501 ∨ resp.status_code = 502 ∨
        resp.status_code = 503 ∨ resp.status_code = 504 then
      Except.error FedErr.requestServer
    else
      match resp.json_body with
      | some v => Except.ok v
      | Option.none => Except.error FedErr.invalidJSON

/-- Federation identity of a location: the pair (fed_id, component_uuid). -/
abbrev LocKey : Type := Int × String

/-- A parsed location record, keeping exactly the fields update.py and the
location graph resolver read: its federation identity and the declared
parent's identity. -/
structure ParsedLocation where
  fed_id : Int
  component_uuid : String
  parent : Option LocKey
deriving DecidableEq

def locKey (l : ParsedLocation) : LocKey := (l.fed_id, l.component_uuid)

/-- The pending-locations dict of update_shares, in insertion order. -/
abbrev LocMap : Type := List (LocKey × ParsedLocation)

def lookupLoc : LocMap → LocKey → Option ParsedLocation
  | [], _ => Option.none
  | (k', v) :: rest, k => if k' = k then some v else lookupLoc rest k

/-- Python `dict.pop(key)` (ignoring absence): removes the entry with the
given key. -/
def eraseLoc : LocMap → LocKey → LocMap
  | [], _ => []
  | (k', v) :: rest, k => if k' = k then rest else (k', v) :: eraseLoc rest k

/-- Python `d[key] = v`: overwrite in place or append. -/
def dictInsertLoc : LocMap → LocKey → ParsedLocation → LocMap
  | [], k, v => [(k, v)]
  | (k', v') :: rest, k, v =>
    if k' = k then (k, v) :: rest else (k', v') :: dictInsertLoc rest k v

def keysOf (m : LocMap) : List LocKey := m.map Prod.fst

/-- The locations dict built by update_shares lines 153-157. -/
def build_loc_map (ls : List ParsedLocation) : LocMap :=
  ls.foldl (fun m l => dictInsertLoc m (locKey l) l) []

/-- The in-batch parent edge of the parent-pointer graph restricted to keys
present in the batch. -/
def inBatchParent (m : LocMap) (k : LocKey) : Option LocKey :=
  match lookupLoc m k with
  | Option.none => Option.none
  | some l =>
    match l.parent with
    | Option.none => Option.none
    | some p => if (lookupLoc m p).isSome then some p else Option.none

def stepParent (m : LocMap) : Option LocKey → Option LocKey
  | Option.none => Option.none
  | some k => inBatchParent m k

/-- Following in-batch parent pointers for `n` steps from `k`. -/
def iterParent (m : LocMap) (n : Nat) (k : LocKey) : Option LocKey :=
  (stepParent m)^[n] (some k)

/-- Whether some batch key lies on an in-batch parent-pointer cycle (any
cycle through the finitely many batch keys has period at most the batch
size). -/
def hasCycleB (m : LocMap) : Bool :=
  m.any (fun e => (List.range m.length).any
    (fun i => decide (iterParent m (i + 1) e.1 = some e.1)))

/-- Modelled from the spec: `locations_check_for_cyclic_dependencies`
(sampledb/logic/federation/locations.py, which is not under src/) builds
the parent-pointer graph restricted to keys present in the batch and fails
when following parent pointers from any node revisits a node already on
the current path, which happens exactly when some batch key lies on an
in-batch parent-pointer cycle. -/
def locations_check_for_cyclic_dependencies (m : LocMap) : Except FedErr Unit :=
  if hasCycleB m then Except.error FedErr.cyclicLocation else Except.ok ()

/-- Modelled from the spec: `import_location`
(sampledb/logic/federation/locations.py, which is not under src/) imports
a location after first recursively importing its in-batch parent chain,
removing each imported ancestor from the pending batch; a parent absent
from the batch is resolved by lookup, not by batch order (spec 4.5).  The
fuel argument bounds the recursion by the batch size; it is never
exhausted on an acyclic batch.  The result lists the locations imported by
the call, in import order, together with the remaining pending batch. -/
def import_location : Nat → ParsedLocation → LocMap → List ParsedLocation × LocMap
  | 0, loc, pending => ([loc], pending)
  | Nat.succ fuel, loc, pending =>
    match loc.parent with
    | Option.none => ([loc], pending)
    | some p =>
      match lookupLoc pending p with
      | Option.none => ([loc], pending)
      | some ploc =>
        let r := import_location fuel ploc (eraseLoc pending p)
        (r.1 ++ [loc], r.2)

/-- The pending-locations drain loop of update_shares lines 185-189: pick
the first key, import it (which may consume in-batch ancestors), then pop
it if it is still pending. -/
def drain_locations : Nat → LocMap → List ParsedLocation
  | 0, _ => []
  | Nat.succ fuel, m =>
    match m with
    | [] => []
    | (k, loc) :: rest =>
      let st := import_location ((k, loc) :: rest).length loc ((k, loc) :: rest)
      st.1 ++ drain_locations fuel (eraseLoc st.2 k)

/-- Observable effects of one synchronization round: the utcnow call, the
two fetches, each per-entity import call, and the watermark update. -/
inductive Event where
  | utcnowCalled
  | fetchUsersCalled
  | fetchObjectsCalled
  | importMarkdownImage (v : PyVal)
  | importUser (v : PyVal)
  | importInstrument (v : PyVal)
  | importActionType (v : PyVal)
  | importAction (v : PyVal)
  | importLocationType (v : PyVal)
  | importLocation (l : ParsedLocation)
  | importObject (v : PyVal)
  | setLastSyncTimestamp (t : Nat)

/-- The entity-type position of an import event in the fixed import order
of update_shares lines 166-192. -/
def typeRank : Event → Nat
  | Event.importMarkdownImage _ => 0
  | Event.importUser _ => 1
  | Event.importInstrument _ => 2
  | Event.importActionType _ => 3
  | Event.importAction _ => 4
  | Event.importLocationType _ => 5
  | Event.importLocation _ => 6
  | Event.importObject _ => 7
  | _ => 8

/-- The opaque collaborators of update.py: configuration, the clock value
sampled by utcnow, the results of the two fetches, and the per-entity-type
parsers (which, per spec 4.3, are pure and fail with a validation error
message). -/
structure FedEnv where
  federation_uuid : Option String
  now : Nat
  fetch_users : Except FedErr PyVal
  fetch_objects : Except FedErr PyVal
  parse_markdown_image : String × PyVal → Component → Except String PyVal
  parse_user : PyVal → Component → Except String PyVal
  parse_instrument : PyVal → Except String PyVal
  parse_action_type : PyVal → Except String PyVal
  parse_action : PyVal → Except String PyVal
  parse_location_type : PyVal → Except String PyVal
  parse_location : PyVal → Except String ParsedLocation
  parse_object : PyVal → Component → Except String PyVal

/-- Modelled from the spec: `_get_dict` with mandatory=True
(sampledb/logic/federation/utils.py, which is not under src/) requires the
value to be present and be a dict (spec 4.3). -/
def _get_dict_mandatory (v : PyVal) : Except FedErr (List (String × PyVal)) :=
  match v with
  | PyVal.dict es => Except.ok es
  | _ => Except.error (FedErr.invalidDataExport "Invalid data export: expected a dict.")

/-- Modelled from the spec: `_get_dict` with a default
(sampledb/logic/federation/utils.py, which is not under src/): an absent
value yields the empty default, a present value must be a dict (spec 4.3). -/
def _get_dict_default (v : PyVal) : Except FedErr (List (String × PyVal)) :=
  match v with
  | PyVal.null => Except.ok []
  | PyVal.dict es => Except.ok es
  | _ => Except.error (FedErr.invalidDataExport "Invalid data export: expected a dict.")

/-- Modelled from the spec: `_get_list` with a default
(sampledb/logic/federation/utils.py, which is not under src/): an absent
value yields the empty default, a present value must be a list (spec 4.3). -/
def _get_list_default (v : PyVal) : Except FedErr (List PyVal) :=
  match v with
  | PyVal.null => Except.ok []
  | PyVal.list xs => Except.ok xs
  | _ => Except.error (FedErr.invalidDataExport "Invalid data export: expected a list.")

/-- Running one of the per-entity parsers over a collection, appending the
results in order; the first parser failure raises InvalidDataExportError
with the parser's message. -/
def parseList {α β : Type} (f : α → Except String β) : List α → Except FedErr (List β)
  | [] => Except.ok []
  | x :: xs =>
    match f x with
    | Except.error msg => Except.error (FedErr.invalidDataExport msg)
    | Except.ok b =>
      match parseList f xs with
      | Except.error e => Except.error e
      | Except.ok bs => Except.ok (b :: bs)

/-- Parsing of the markdown_images collection (update_shares lines 123-126). -/
def parse_stage_markdown_images (env : FedEnv) (component : Component)
    (es : List (String × PyVal)) : Except FedErr (List PyVal) :=
  match _get_dict_default (dictGet es "markdown_images") with
  | Except.error e => Except.error e
  | Except.ok d => parseList (fun kv => env.parse_markdown_image kv component) d

/-- Parsing of the users collection (update_shares lines 128-131). -/
def parse_stage_users (env : FedEnv) (component : Component)
    (es : List (String × PyVal)) : Except FedErr (List PyVal) :=
  match _get_list_default (dictGet es "users") with
  | Except.error e => Except.error e
  | Except.ok l => parseList (fun u => env.parse_user u component) l

/-- Parsing of the instruments collection (update_shares lines 133-136). -/
def parse_stage_instruments (env : FedEnv) (es : List (String × PyVal)) :
    Except FedErr (List PyVal) :=
  match _get_list_default (dictGet es "instruments") with
  | Except.error e => Except.error e
  | Except.ok l => parseList env.parse_instrument l

/-- Parsing of the action_types collection (update_shares lines 138-141). -/
def parse_stage_action_types (env : FedEnv) (es : List (String × PyVal)) :
    Except FedErr (List PyVal) :=
  match _get_list_default (dictGet es "action_types") with
  | Except.error e => Except.error e
  | Except.ok l => parseList env.parse_action_type l

/-- Parsing of the actions collection (update_shares lines 143-146). -/
def parse_stage_actions (env : FedEnv) (es : List (String × PyVal)) :
    Except FedErr (List PyVal) :=
  match _get_list_default (dictGet es "actions") with
  | Except.error e => Except.error e
  | Except.ok l => parseList env.parse_action l

/-- Parsing of the location_types collection (update_shares lines 148-151). -/
def parse_stage_location_types (env : FedEnv) (es : List (String × PyVal)) :
    Except FedErr (List PyVal) :=
  match _get_list_default (dictGet es "location_types") with
  | Except.error e => Except.error e
  | Except.ok l => parseList env.parse_location_type l

/-- Parsing of the locations collection into the keyed pending dict
(update_shares lines 153-157). -/
def parse_stage_locations (env : FedEnv) (es : List (String × PyVal)) :
    Except FedErr LocMap :=
  match _get_list_default (dictGet es "locations") with
  | Except.error e => Except.error e
  | Except.ok l =>
    match parseList env.parse_location l with
    | Except.error e => Except.error e
    | Except.ok ls => Except.ok (build_loc_map ls)

/-- Parsing of the objects collection (update_shares lines 161-164). -/
def parse_stage_objects (env : FedEnv) (component : Component)
    (es : List (String × PyVal)) : Except FedErr (List PyVal) :=
  match _get_list_default (dictGet es "objects") with
  | Except.error e => Except.error e
  | Except.ok l => parseList (fun o => env.parse_object o component) l

/-- The apply section of update_shares (lines 166-192): imports of every
parsed entity in the fixed entity-type order, locations drained through
import_location. -/
def apply_shares (mis usrs ins ats acts lts : List PyVal) (locs : LocMap)
    (objs : List PyVal) : List Event :=
  mis.map Event.importMarkdownImage ++ usrs.map Event.importUser ++
    ins.map Event.importInstrument ++ ats.map Event.importActionType ++
    acts.map Event.importAction ++ lts.map Event.importLocationType ++
    (drain_locations locs.length locs).map Event.importLocation ++
    objs.map Event.importObject

/-- Model of `update_users` (update.py lines 106-115). -/
def update_users (env : FedEnv) (component : Component) (updates : PyVal) :
    Except FedErr (List Event) :=
  match _get_dict_mandatory updates with
  | Except.error e => Except.error e
  | Except.ok es =>
    match _validate_header (dictGet es "header") component with
    | Except.error e => Except.error e
    | Except.ok _ =>
      match _get_list_default (dictGet es "users") with
      | Except.error e => Except.error e
      | Except.ok l =>
        match parseList (fun u => env.parse_user u component) l with
        | Except.error e => Except.error e
        | Except.ok usrs => Except.ok (usrs.map Event.importUser)

/-- Model of `update_shares` (update.py lines 118-192): validate the
payload shape and header, parse every collection, check the location graph,
then apply all imports.  An error result means the round raised before the
apply section, so no import call was made. -/
def update_shares (env : FedEnv) (component : Component) (updates : PyVal) :
    Except FedErr (List Event) :=
  match _get_dict_mandatory updates with
  | Except.error e => Except.error e
  | Except.ok es =>
    match _validate_header (dictGet es "header") component with
    | Except.error e => Except.error e
    | Except.ok _ =>
      match parse_stage_markdown_images env component es with
      | Except.error e => Except.error e
      | Except.ok mis =>
        match parse_stage_users env component es with
        | Except.error e => Except.error e
        | Except.ok usrs =>
          match parse_stage_instruments env es with
          | Except.error e => Except.error e
          | Except.ok ins =>
            match parse_stage_action_types env es with
            | Except.error e => Except.error e
            | Except.ok ats =>
              match parse_stage_actions env es with
              | Except.error e => Except.error e
              | Except.ok acts =>
                match parse_stage_location_types env es with
                | Except.error e => Except.error e
                | Except.ok lts =>
                  match parse_stage_locations env es with
                  | Except.error e => Except.error e
                  | Except.ok locs =>
                    match locations_check_for_cyclic_dependencies locs with
                    | Except.error e => Except.error e
                    | Except.ok _ =>
                      match parse_stage_objects env component es with
                      | Except.error e => Except.error e
                      | Except.ok objs =>
                        Except.ok (apply_shares mis usrs ins ats acts lts locs objs)

/-- The users fetch of import_updates (lines 89-96): InvalidJSONError is
re-raised as InvalidDataExportError, RequestServerError and
UnauthorizedRequestError are swallowed leaving the local variable `users`
unbound (None here), any other error propagates. -/
def users_fetch_result (r : Except FedErr PyVal) : Except FedErr (Option PyVal) :=
  match r with
  | Except.ok v => Except.ok (some v)
  | Except.error FedErr.invalidJSON =>
    Except.error (FedErr.invalidDataExport "Received an invalid JSON string.")
  | Except.error FedErr.requestServer => Except.ok Option.none
  | Except.error FedErr.unauthorizedRequest => Except.ok Option.none
  | Except.error e => Except.error e

/-- The shared-updates fetch of import_updates (lines 97-100): only
InvalidJSONError is caught and re-raised as InvalidDataExportError. -/
def objects_fetch_result (r : Except FedErr PyVal) : Except FedErr PyVal :=
  match r with
  | Except.ok v => Except.ok v
  | Except.error FedErr.invalidJSON =>
    Except.error (FedErr.invalidDataExport "Received an invalid JSON string.")
  | Except.error e => Except.error e

/-- Model of `import_updates` (update.py lines 85-103): configuration
check, utcnow sample, users fetch (best-effort), shared-updates fetch,
update_users, update_shares, watermark advance.  The result is the event
trace so far paired with the raised error, if any; referencing the unbound
`users` local after a swallowed users-fetch error surfaces as
`unboundLocal`. -/
def import_updates (env : FedEnv) (component : Component) :
    List Event × Option FedErr :=
  match env.federation_uuid with
  | Option.none => ([], some FedErr.componentNotConfiguredForFederation)
  | some _ =>
    match users_fetch_result env.fetch_users with
    | Except.error e => ([Event.utcnowCalled, Event.fetchUsersCalled], some e)
    | Except.ok usersOpt =>
      match objects_fetch_result env.fetch_objects with
      | Except.error e =>
        ([Event.utcnowCalled, Event.fetchUsersCalled, Event.fetchObjectsCalled], some e)
      | Except.ok updates =>
        match usersOpt with
        | Option.none =>
          ([Event.utcnowCalled, Event.fetchUsersCalled, Event.fetchObjectsCalled],
            some FedErr.unboundLocal)
        | some users =>
          match update_users env component users with
          | Except.error e =>
            ([Event.utcnowCalled, Event.fetchUsersCalled, Event.fetchObjectsCalled], some e)
          | Except.ok evsU =>
            match update_shares env component updates with
            | Except.error e =>
              ([Event.utcnowCalled, Event.fetchUsersCalled, Event.fetchObjectsCalled] ++ evsU,
                some e)
            | Except.ok evsS =>
              ([Event.utcnowCalled, Event.fetchUsersCalled, Event.fetchObjectsCalled] ++ evsU ++
                evsS ++ [Event.setLastSyncTimestamp env.now], Option.none)

/-- The keys of a map are pairwise distinct. -/
def NodupKeys (m : LocMap) : Prop := (keysOf m).Nodup

/-- Every entry is stored under the key of its own record, as the dict
built on update_shares line 157 guarantees. -/
def KeyCoherent (m : LocMap) : Prop := ∀ e ∈ m, e.1 = locKey e.2

/-- Entry-wise inclusion of pending maps. -/
def SubMapOf (m mtop : LocMap) : Prop :=
  ∀ k v, lookupLoc m k = some v → lookupLoc mtop k = some v

/-- No key lies on an in-batch parent-pointer cycle of any length. -/
def NoCycle (m : LocMap) : Prop := ∀ k c, 1 ≤ c → iterParent m c k ≠ some k

/-- The keys reachable from a location by following declared parents
through batch entries. -/
inductive Reaches (m : LocMap) : ParsedLocation → LocKey → Prop where
  | parent {loc : ParsedLocation} {q : LocKey} :
    loc.parent = some q → Reaches m loc q
  | step {loc : ParsedLocation} {p : LocKey} {ploc : ParsedLocation} {q : LocKey} :
    loc.parent = some p → lookupLoc m p = some ploc → Reaches m ploc q →
      Reaches m loc q

/-- Each listed location's declared parent is either among the previously
seen keys or absent from the reference batch. -/
def POrd (m : LocMap) : List LocKey → List ParsedLocation → Prop
  | _, [] => True
  | seen, x :: rest =>
    (∀ q, x.parent = some q → q ∈ seen ∨ lookupLoc m q = Option.none) ∧
      POrd m (locKey x :: seen) rest

def eraseAllKeys (m : LocMap) (ks : List LocKey) : LocMap := ks.foldl eraseLoc m

/-- A concrete environment with simple parsers, used to exercise the
orchestration on closed inputs: every parser accepts its input unchanged,
except that the action-type parser rejects the string "bad" and the
location parser decodes an integer `n` as the location (n, "c") without a
parent and a pair `[n, p]` as (n, "c") with parent (p, "c"). -/
def envW : FedEnv where
  federation_uuid := some "fed-uuid"
  now := 42
  fetch_users := Except.ok (PyVal.dict [])
  fetch_objects := Except.ok (PyVal.dict [])
  parse_markdown_image := fun kv _ => Except.ok kv.2
  parse_user := fun v _ => Except.ok v
  parse_instrument := fun v => Except.ok v
  parse_action_type := fun v =>
    match v with
    | PyVal.str "bad" => Except.error "bad action type"
    | _ => Except.ok v
  parse_action := fun v => Except.ok v
  parse_location_type := fun v => Except.ok v
  parse_location := fun v =>
    match v with
    | PyVal.int n => Except.ok ⟨n, "c", Option.none⟩
    | PyVal.list [PyVal.int n, PyVal.int p] => Except.ok ⟨n, "c", some (p, "c")⟩
    | _ => Except.error "invalid location"
  parse_object := fun v _ => Except.ok v

/-- The environment envW with a users fetch that fails with
RequestServerError (an HTTP 500 answer to the users share endpoint). -/
def envC3 : FedEnv := { envW with fetch_users := Except.error FedErr.requestServer }

end Federation

namespace Federation

lemma isNull_false_of_pyInt_ok {a : PyVal} {n : Int} (h : pyInt a = Except.ok n) :
    a.isNull = false := by
  cases a <;> simp_all [pyInt, PyVal.isNull]

lemma validate_header_to_version (u : String) (addr : Option String)
    (hs ps : List (String × PyVal))
    (h1 : dictGet hs "db_uuid" = PyVal.str u)
    (h2 : dictGet hs "protocol_version" = PyVal.dict ps) :
    _validate_header (PyVal.dict hs) ⟨u, addr⟩ =
      _validate_protocol_version (dictGet ps "major") (dictGet ps "minor") := by
  simp [_validate_header, pyGetE, h1, h2, pyEqStr]

lemma validate_version_of_ints (a b : PyVal) (mj mn : Int)
    (ha : pyInt a = Except.ok mj) (hb : pyInt b = Except.ok mn) :
    _validate_protocol_version a b =
      if mj > 0 ∨ (mj ≤ 0 ∧ mn > 1) then
        Except.error (FedErr.invalidDataExport "Unsupported protocol version")
      else Except.ok () := by
  simp [_validate_protocol_version, isNull_false_of_pyInt_ok ha,
    isNull_false_of_pyInt_ok hb, ha, hb, PROTOCOL_VERSION_MAJOR, PROTOCOL_VERSION_MINOR]

/-- Claim C4, counterexample: a header advertising protocol version
major = -1, minor = 0 (with matching db_uuid and integer-convertible
fields) is accepted by the header validation, although the claim states
that validation succeeds exactly when major equals 0, so it requires this
input to be rejected. -/
theorem claim4_counterexample :
    _validate_header
      (PyVal.dict [("db_uuid", PyVal.str "u"),
        ("protocol_version",
          PyVal.dict [("major", PyVal.int (-1)), ("minor", PyVal.int 0)])])
      ⟨"u", Option.none⟩ = Except.ok () := by
  rfl

/-- Claim C4, amended: for a header whose db_uuid matches and whose
protocol_version is a dict with integer-convertible major and minor,
validation succeeds exactly when major is at most 0 and minor is at most 1
(not only for major equal to 0); a missing protocol_version, or a missing
major or minor, or one whose string value does not parse as an integer,
raises InvalidDataExportError; a major or minor of a kind rejected by
Python int(), such as a list or dict, raises an uncaught TypeError rather
than InvalidDataExportError. -/
theorem claim4_amended :
    (∀ (u : String) (addr : Option String) (hs ps : List (String × PyVal)) (mj mn : Int),
      dictGet hs "db_uuid" = PyVal.str u →
      dictGet hs "protocol_version" = PyVal.dict ps →
      pyInt (dictGet ps "major") = Except.ok mj →
      pyInt (dictGet ps "minor") = Except.ok mn →
      (_validate_header (PyVal.dict hs) ⟨u, addr⟩ = Except.ok () ↔ mj ≤ 0 ∧ mn ≤ 1)) ∧
    (∀ (u : String) (addr : Option String) (hs : List (String × PyVal)),
      dictGet hs "db_uuid" = PyVal.str u →
      dictGet hs "protocol_version" = PyVal.null →
      _validate_header (PyVal.dict hs) ⟨u, addr⟩ =
        Except.error (FedErr.invalidDataExport "Missing protocol_version.")) ∧
    (∀ (u : String) (addr : Option String) (hs ps : List (String × PyVal)),
      dictGet hs "db_uuid" = PyVal.str u →
      dictGet hs "protocol_version" = PyVal.dict ps →
      ((dictGet ps "major").isNull = true ∨ (dictGet ps "minor").isNull = true) →
      _validate_header (PyVal.dict hs) ⟨u, addr⟩ =
        Except.error (FedErr.invalidDataExport "Invalid protocol version")) ∧
    (∀ (u : String) (addr : Option String) (hs ps : List (String × PyVal)),
      dictGet hs "db_uuid" = PyVal.str u →
      dictGet hs "protocol_version" = PyVal.dict ps →
      (dictGet ps "major").isNull = false →
      (dictGet ps "minor").isNull = false →
      (pyInt (dictGet ps "major") = Except.error PyNumErr.valueErr ∨
        (∃ mj, pyInt (dictGet ps "major") = Except.ok mj ∧
          pyInt (dictGet ps "minor") = Except.error PyNumErr.valueErr)) →
      _validate_header (PyVal.dict hs) ⟨u, addr⟩ =
        Except.error (FedErr.invalidDataExport "Invalid protocol version")) ∧
    (∀ (u : String) (addr : Option String) (hs ps : List (String × PyVal)),
      dictGet hs "db_uuid" = PyVal.str u →
      dictGet hs "protocol_version" = PyVal.dict ps →
      (dictGet ps "major").isNull = false →
      (dictGet ps "minor").isNull = false →
      (pyInt (dictGet ps "major") = Except.error PyNumErr.typeErr ∨
        (∃ mj, pyInt (dictGet ps "major") = Except.ok mj ∧
          pyInt (dictGet ps "minor") = Except.error PyNumErr.typeErr)) →
      _validate_header (PyVal.dict hs) ⟨u, addr⟩ = Except.error FedErr.typeError) := by
  refine ⟨?_, ?_, ?_, ?_, ?_⟩
  · intro u addr hs ps mj mn h1 h2 ha hb
    rw [validate_header_to_version u addr hs ps h1 h2,
      validate_version_of_ints _ _ mj mn ha hb]
    split <;> simp <;> omega
  · intro u addr hs h1 h2
    simp [_validate_header, pyGetE, h1, h2, pyEqStr]
  · intro u addr hs ps h1 h2 h3
    rw [validate_header_to_version u addr hs ps h1 h2]
    unfold _validate_protocol_version
    rcases h3 with h | h <;> simp [h]
  · intro u addr hs ps h1 h2 h3 h4 h5
    rw [validate_header_to_version u addr hs ps h1 h2]
    unfold _validate_protocol_version
    rcases h5 with h | ⟨mj, hmj, hmn⟩
    · simp [h3, h4, h]
    · simp [h3, h4, hmj, hmn]
  · intro u addr hs ps h1 h2 h3 h4 h5
    rw [validate_header_to_version u addr hs ps h1 h2]
    unfold _validate_protocol_version
    rcases h5 with h | ⟨mj, hmj, hmn⟩
    · simp [h3, h4, h]
    · simp [h3, h4, hmj, hmn]

/-- Witness for claim C4 (amended): the supported version (0, 1) with a
matching UUID validates successfully. -/
theorem claim4_witness :
    _validate_header
      (PyVal.dict [("db_uuid", PyVal.str "u"),
        ("protocol_version",
          PyVal.dict [("major", PyVal.int 0), ("minor", PyVal.int 1)])])
      ⟨"u", Option.none⟩ = Except.ok () :=
  (claim4_amended.1 "u" Option.none
    [("db_uuid", PyVal.str "u"),
      ("protocol_version", PyVal.dict [("major", PyVal.int 0), ("minor", PyVal.int 1)])]
    [("major", PyVal.int 0), ("minor", PyVal.int 1)] 0 1 rfl rfl rfl rfl).mpr (by decide)

/-- Claim C5: whenever the header's db_uuid value differs from the
component's uuid (in particular when it is absent or not a string), header
validation fails with InvalidDataExportError, whatever the
protocol_version contents are. -/
theorem claim5_uuid_mismatch :
    ∀ (u : String) (addr : Option String) (hs : List (String × PyVal)),
      pyEqStr (dictGet hs "db_uuid") u = false →
      _validate_header (PyVal.dict hs) ⟨u, addr⟩ =
        Except.error (FedErr.invalidDataExport
          "UUID of exporting database does not match expected UUID.") := by
  intro u addr hs h
  simp [_validate_header, pyGetE, h]

/-- Witness for claim C5: db_uuid "X" against component uuid "Y". -/
theorem claim5_witness :
    _validate_header (PyVal.dict [("db_uuid", PyVal.str "X")]) ⟨"Y", Option.none⟩ =
      Except.error (FedErr.invalidDataExport
        "UUID of exporting database does not match expected UUID.") :=
  claim5_uuid_mismatch "Y" Option.none _ rfl

/-- Claim C8: the transport get checks the component address before
anything else (the missing-address error does not depend on the response),
then fails with UnauthorizedRequestError exactly on status 401, with
RequestServerError exactly on status 500-504, with InvalidJSONError
exactly when the body is not valid JSON, and otherwise returns the decoded
body. -/
theorem claim8_get :
    (∀ (component : Component) (resp : HttpResponse), component.address = Option.none →
      get component resp = Except.error FedErr.missingComponentAddress) ∧
    (∀ (component : Component) (a : String) (resp : HttpResponse),
      component.address = some a →
      ((get component resp = Except.error FedErr.unauthorizedRequest ↔
          resp.status_code = 401) ∧
       (get component resp = Except.error FedErr.requestServer ↔
          (resp.status_code = 500 ∨ resp.status_code = 501 ∨ resp.status_code = 502 ∨
            resp.status_code = 503 ∨ resp.status_code = 504)) ∧
       (resp.status_code ≠ 401 →
        ¬(resp.status_code = 500 ∨ resp.status_code = 501 ∨ resp.status_code = 502 ∨
            resp.status_code = 503 ∨ resp.status_code = 504) →
        ((get component resp = Except.error FedErr.invalidJSON ↔
            resp.json_body = Option.none) ∧
          (∀ v, resp.json_body = some v → get component resp = Except.ok v))))) := by
  constructor
  · intro comp resp h
    simp [get, h]
  · intro comp a resp h
    by_cases h1 : resp.status_code = 401
    · simp [get, h, h1]
    · by_cases h2 : resp.status_code = 500 ∨ resp.status_code = 501 ∨
        resp.status_code = 502 ∨ resp.status_code = 503 ∨ resp.status_code = 504
      · refine ⟨?_, ?_, ?_⟩ <;> simp [get, h, h1, h2]
      · cases hb : resp.json_body <;>
          refine ⟨?_, ?_, ?_⟩ <;> simp [get, h, h1, h2, hb]

/-- Witness for claim C8: an address-less component fails regardless of
the response, and a 401 answer to a component with an address fails with
UnauthorizedRequestError. -/
theorem claim8_witness :
    get ⟨"u", Option.none⟩ ⟨200, some (PyVal.int 1)⟩ =
        Except.error FedErr.missingComponentAddress ∧
      get ⟨"u", some "https://x.example"⟩ ⟨401, Option.none⟩ =
        Except.error FedErr.unauthorizedRequest :=
  ⟨claim8_get.1 _ _ rfl, ((claim8_get.2 _ "https://x.example" _ rfl).1).mpr rfl⟩

lemma update_users_ok_no_set {env : FedEnv} {c : Component} {u : PyVal} {evs : List Event}
    (h : update_users env c u = Except.ok evs) :
    ∀ t, Event.setLastSyncTimestamp t ∉ evs := by
  unfold update_users at h
  repeat' split at h
  all_goals try exact Except.noConfusion h
  injection h with h'
  subst h'
  intro t
  simp

lemma update_shares_ok_no_set {env : FedEnv} {c : Component} {u : PyVal} {evs : List Event}
    (h : update_shares env c u = Except.ok evs) :
    ∀ t, Event.setLastSyncTimestamp t ∉ evs := by
  unfold update_shares at h
  repeat' split at h
  all_goals try exact Except.noConfusion h
  injection h with h'
  subst h'
  intro t
  simp [apply_shares, List.mem_append, List.mem_map]

/-- Claim C2: the watermark update is the last event of a round that
completes without error and carries the clock value sampled once at the
start (before the fetch events); a round that ends in any error emits no
watermark update at all; and every nonempty round trace starts with the
utcnow sample. -/
theorem claim2_watermark :
    ∀ (env : FedEnv) (component : Component),
      ((import_updates env component).2 = Option.none →
        ((import_updates env component).1).getLast? =
            some (Event.setLastSyncTimestamp env.now) ∧
          ∀ t, Event.setLastSyncTimestamp t ∈ (import_updates env component).1 →
            t = env.now) ∧
      ((import_updates env component).2 ≠ Option.none →
        ∀ t, Event.setLastSyncTimestamp t ∉ (import_updates env component).1) ∧
      ((import_updates env component).1 = [] ∨
        ((import_updates env component).1).head? = some Event.utcnowCalled) := by
  intro env c
  unfold import_updates
  cases hf : env.federation_uuid with
  | none => exact ⟨by simp, by simp, Or.inl rfl⟩
  | some fu =>
    dsimp only
    cases hu : users_fetch_result env.fetch_users with
    | error e => exact ⟨by simp, by intro _ t; simp, Or.inr rfl⟩
    | ok usersOpt =>
      dsimp only
      cases ho : objects_fetch_result env.fetch_objects with
      | error e => exact ⟨by simp, by intro _ t; simp, Or.inr rfl⟩
      | ok updates =>
        dsimp only
        cases usersOpt with
        | none => exact ⟨by simp, by intro _ t; simp, Or.inr rfl⟩
        | some users =>
          dsimp only
          cases hU : update_users env c users with
          | error e => exact ⟨by simp, by intro _ t; simp, Or.inr rfl⟩
          | ok evsU =>
            dsimp only
            cases hS : update_shares env c updates with
            | error e =>
              refine ⟨by simp, ?_, Or.inr (by simp)⟩
              intro _ t hm
              simp only [List.mem_append] at hm
              rcases hm with hm | hm
              · simp at hm
              · exact update_users_ok_no_set hU t hm
            | ok evsS =>
              refine ⟨?_, by simp, Or.inr (by simp)⟩
              intro _
              constructor
              · exact List.getLast?_concat _
              · intro t hm
                simp only [List.mem_append] at hm
                rcases hm with ((hm | hm) | hm) | hm
                · simp at hm
                · exact absurd hm (update_users_ok_no_set hU t)
                · exact absurd hm (update_shares_ok_no_set hS t)
                · simpa using hm

/-- Witness for claim C2: a fully successful round against the concrete
environment ends with the watermark event carrying the start timestamp. -/
theorem claim2_witness :
    ((import_updates envW ⟨"u", some "https://x.example"⟩).1).getLast? =
      some (Event.setLastSyncTimestamp envW.now) :=
  ((claim2_watermark envW ⟨"u", some "https://x.example"⟩).1 rfl).1

/-- Claim C3, code-bug evaluation: when the users fetch fails with
RequestServerError, the error is swallowed and the objects endpoint is
still fetched, but the round then aborts with an uncaught
UnboundLocalError at the call update_users(component, users), because the
local variable `users` was never assigned; the shared updates are not
imported and the watermark is not advanced, contrary to the claim that the
round completes. -/
theorem claim3_users_fetch_bug :
    import_updates envC3 ⟨"u", some "https://x.example"⟩ =
      ([Event.utcnowCalled, Event.fetchUsersCalled, Event.fetchObjectsCalled],
        some FedErr.unboundLocal) := rfl

/-- Claim C1: once the payload shape and header pass, a parse failure in
any entity collection is raised unchanged by update_shares, which in this
model returns no event trace, reflecting that the source raises during the
parse section and never reaches the apply section, so no import function
is called. -/
theorem claim1_parse_failure_aborts :
    ∀ (env : FedEnv) (component : Component) (updates : PyVal)
      (es : List (String × PyVal)) (e : FedErr),
      _get_dict_mandatory updates = Except.ok es →
      _validate_header (dictGet es "header") component = Except.ok () →
      ((parse_stage_markdown_images env component es = Except.error e →
          update_shares env component updates = Except.error e) ∧
       (∀ mis, parse_stage_markdown_images env component es = Except.ok mis →
          parse_stage_users env component es = Except.error e →
          update_shares env component updates = Except.error e) ∧
       (∀ mis usrs, parse_stage_markdown_images env component es = Except.ok mis →
          parse_stage_users env component es = Except.ok usrs →
          parse_stage_instruments env es = Except.error e →
          update_shares env component updates = Except.error e) ∧
       (∀ mis usrs ins, parse_stage_markdown_images env component es = Except.ok mis →
          parse_stage_users env component es = Except.ok usrs →
          parse_stage_instruments env es = Except.ok ins →
          parse_stage_action_types env es = Except.error e →
          update_shares env component updates = Except.error e) ∧
       (∀ mis usrs ins ats, parse_stage_markdown_images env component es = Except.ok mis →
          parse_stage_users env component es = Except.ok usrs →
          parse_stage_instruments env es = Except.ok ins →
          parse_stage_action_types env es = Except.ok ats →
          parse_stage_actions env es = Except.error e →
          update_shares env component updates = Except.error e) ∧
       (∀ mis usrs ins ats acts,
          parse_stage_markdown_images env component es = Except.ok mis →
          parse_stage_users env component es = Except.ok usrs →
          parse_stage_instruments env es = Except.ok ins →
          parse_stage_action_types env es = Except.ok ats →
          parse_stage_actions env es = Except.ok acts →
          parse_stage_location_types env es = Except.error e →
          update_shares env component updates = Except.error e) ∧
       (∀ mis usrs ins ats acts lts,
          parse_stage_markdown_images env component es = Except.ok mis →
          parse_stage_users env component es = Except.ok usrs →
          parse_stage_instruments env es = Except.ok ins →
          parse_stage_action_types env es = Except.ok ats →
          parse_stage_actions env es = Except.ok acts →
          parse_stage_location_types env es = Except.ok lts →
          parse_stage_locations env es = Except.error e →
          update_shares env component updates = Except.error e) ∧
       (∀ mis usrs ins ats acts lts locs,
          parse_stage_markdown_images env component es = Except.ok mis →
          parse_stage_users env component es = Except.ok usrs →
          parse_stage_instruments env es = Except.ok ins →
          parse_stage_action_types env es = Except.ok ats →
          parse_stage_actions env es = Except.ok acts →
          parse_stage_location_types env es = Except.ok lts →
          parse_stage_locations env es = Except.ok locs →
          locations_check_for_cyclic_dependencies locs = Except.ok () →
          parse_stage_objects env component es = Except.error e →
          update_shares env component updates = Except.error e)) := by
  intro env c u es e h1 h2
  refine ⟨?_, ?_, ?_, ?_, ?_, ?_, ?_, ?_⟩
  · intro h3
    simp [update_shares, h1, h2, h3]
  · intro mis h3 h4
    simp [update_shares, h1, h2, h3, h4]
  · intro mis usrs h3 h4 h5
    simp [update_shares, h1, h2, h3, h4, h5]
  · intro mis usrs ins h3 h4 h5 h6
    simp [update_shares, h1, h2, h3, h4, h5, h6]
  · intro mis usrs ins ats h3 h4 h5 h6 h7
    simp [update_shares, h1, h2, h3, h4, h5, h6, h7]
  · intro mis usrs ins ats acts h3 h4 h5 h6 h7 h8
    simp [update_shares, h1, h2, h3, h4, h5, h6, h7, h8]
  · intro mis usrs ins ats acts lts h3 h4 h5 h6 h7 h8 h9
    simp [update_shares, h1, h2, h3, h4, h5, h6, h7, h8, h9]
  · intro mis usrs ins ats acts lts locs h3 h4 h5 h6 h7 h8 h9 h10 h11
    simp [update_shares, h1, h2, h3, h4, h5, h6, h7, h8, h9, h10, h11]

/-- Witness for claim C1: with three action types of which the second is
malformed, update_shares raises the parse error and imports nothing. -/
theorem claim1_witness :
    update_shares envW ⟨"u", Option.none⟩
      (PyVal.dict [("action_types",
        PyVal.list [PyVal.str "a", PyVal.str "bad", PyVal.str "c"])]) =
      Except.error (FedErr.invalidDataExport "bad action type") :=
  ((claim1_parse_failure_aborts envW ⟨"u", Option.none⟩
      (PyVal.dict [("action_types",
        PyVal.list [PyVal.str "a", PyVal.str "bad", PyVal.str "c"])])
      [("action_types", PyVal.list [PyVal.str "a", PyVal.str "bad", PyVal.str "c"])]
      (FedErr.invalidDataExport "bad action type")
      rfl rfl).2.2.2.1) [] [] [] rfl rfl rfl rfl

lemma pairwise_rank_of_const (r : Nat) (l : List Event)
    (h : ∀ x ∈ l, typeRank x = r) :
    List.Pairwise (fun a b => typeRank a ≤ typeRank b) l := by
  induction l with
  | nil => simp
  | cons x xs ih =>
    refine List.Pairwise.cons ?_ (ih (fun y hy => h y (by simp [hy])))
    intro y hy
    rw [h x (by simp), h y (by simp [hy])]

lemma pairwise_rank_step {l : List Event} {k : Nat}
    (h : List.Pairwise (fun a b => typeRank a ≤ typeRank b) l ∧ ∀ x ∈ l, typeRank x ≤ k)
    {c : List Event} {r : Nat} (hkr : k ≤ r) (hc : ∀ x ∈ c, typeRank x = r) :
    List.Pairwise (fun a b => typeRank a ≤ typeRank b) (l ++ c) ∧
      ∀ x ∈ l ++ c, typeRank x ≤ r := by
  constructor
  · refine List.pairwise_append.mpr ⟨h.1, pairwise_rank_of_const r c hc, ?_⟩
    intro a ha b hb
    exact le_trans (le_trans (h.2 a ha) hkr) (le_of_eq (hc b hb).symm)
  · intro x hx
    rcases List.mem_append.mp hx with hx | hx
    · exact le_trans (h.2 x hx) hkr
    · exact le_of_eq (hc x hx)

lemma rank_all_map {α : Type} (f : α → Event) (r : Nat) (h : ∀ a, typeRank (f a) = r)
    (l : List α) : ∀ x ∈ l.map f, typeRank x = r := by
  intro x hx
  obtain ⟨a, _, rfl⟩ := List.mem_map.mp hx
  exact h a

lemma apply_shares_pairwise (mis usrs ins ats acts lts : List PyVal) (locs : LocMap)
    (objs : List PyVal) :
    List.Pairwise (fun a b => typeRank a ≤ typeRank b)
      (apply_shares mis usrs ins ats acts lts locs objs) := by
  unfold apply_shares
  have s0 : List.Pairwise (fun a b => typeRank a ≤ typeRank b)
      (mis.map Event.importMarkdownImage) ∧
      ∀ x ∈ mis.map Event.importMarkdownImage, typeRank x ≤ 0 := by
    constructor
    · exact pairwise_rank_of_const 0 _
        (rank_all_map Event.importMarkdownImage 0 (fun a => rfl) mis)
    · intro x hx
      exact le_of_eq (rank_all_map Event.importMarkdownImage 0 (fun a => rfl) mis x hx)
  have s1 := pairwise_rank_step s0 (by omega) (rank_all_map Event.importUser 1 (fun a => rfl) usrs)
  have s2 := pairwise_rank_step s1 (by omega)
    (rank_all_map Event.importInstrument 2 (fun a => rfl) ins)
  have s3 := pairwise_rank_step s2 (by omega)
    (rank_all_map Event.importActionType 3 (fun a => rfl) ats)
  have s4 := pairwise_rank_step s3 (by omega)
    (rank_all_map Event.importAction 4 (fun a => rfl) acts)
  have s5 := pairwise_rank_step s4 (by omega)
    (rank_all_map Event.importLocationType 5 (fun a => rfl) lts)
  have s6 := pairwise_rank_step s5 (by omega)
    (rank_all_map Event.importLocation 6 (fun a => rfl) (drain_locations locs.length locs))
  have s7 := pairwise_rank_step s6 (by omega)
    (rank_all_map Event.importObject 7 (fun a => rfl) objs)
  exact s7.1

/-- Claim C6: every event trace produced by a successful update_shares
round is sorted by the fixed entity-type order markdown images, users,
instruments, action types, actions, location types, locations, objects. -/
theorem claim6_import_order :
    ∀ (env : FedEnv) (component : Component) (updates : PyVal) (evs : List Event),
      update_shares env component updates = Except.ok evs →
      List.Pairwise (fun a b => typeRank a ≤ typeRank b) evs := by
  intro env c u evs h
  unfold update_shares at h
  repeat' split at h
  all_goals try exact Except.noConfusion h
  injection h with h'
  subst h'
  exact apply_shares_pairwise _ _ _ _ _ _ _ _

/-- Witness for claim C6: a concrete round with one user and one object
produces the user import before the object import. -/
theorem claim6_witness :
    List.Pairwise (fun a b => typeRank a ≤ typeRank b)
      [Event.importUser (PyVal.str "u1"), Event.importObject (PyVal.str "o1")] :=
  claim6_import_order envW ⟨"u", Option.none⟩
    (PyVal.dict [("users", PyVal.list [PyVal.str "u1"]),
      ("objects", PyVal.list [PyVal.str "o1"])])
    [Event.importUser (PyVal.str "u1"), Event.importObject (PyVal.str "o1")] rfl

/-- Claim C9: a payload without a header skips both the peer-UUID check
and the protocol-version check, since _validate_header does nothing on
None, and update_users and update_shares then proceed to parse and import
the payload's entities. -/
theorem claim9_header_bypass :
    (∀ component : Component, _validate_header PyVal.null component = Except.ok ()) ∧
    (∀ (env : FedEnv) (component : Component) (updates : PyVal)
      (es : List (String × PyVal)) (l : List PyVal) (usrs : List PyVal),
      _get_dict_mandatory updates = Except.ok es →
      dictGet es "header" = PyVal.null →
      _get_list_default (dictGet es "users") = Except.ok l →
      parseList (fun u => env.parse_user u component) l = Except.ok usrs →
      update_users env component updates = Except.ok (usrs.map Event.importUser)) ∧
    (∀ (env : FedEnv) (component : Component) (updates : PyVal)
      (es : List (String × PyVal)) (mis usrs ins ats acts lts : List PyVal)
      (locs : LocMap) (objs : List PyVal),
      _get_dict_mandatory updates = Except.ok es →
      dictGet es "header" = PyVal.null →
      parse_stage_markdown_images env component es = Except.ok mis →
      parse_stage_users env component es = Except.ok usrs →
      parse_stage_instruments env es = Except.ok ins →
      parse_stage_action_types env es = Except.ok ats →
      parse_stage_actions env es = Except.ok acts →
      parse_stage_location_types env es = Except.ok lts →
      parse_stage_locations env es = Except.ok locs →
      hasCycleB locs = false →
      parse_stage_objects env component es = Except.ok objs →
      update_shares env component updates =
        Except.ok (apply_shares mis usrs ins ats acts lts locs objs)) := by
  refine ⟨?_, ?_, ?_⟩
  · intro c
    rfl
  · intro env c u es l usrs h1 h2 h3 h4
    simp [update_users, h1, h2, _validate_header, h3, h4]
  · intro env c u es mis usrs ins ats acts lts locs objs h1 h2 h3 h4 h5 h6 h7 h8 h9 h10 h11
    simp [update_shares, h1, h2, _validate_header, h3, h4, h5, h6, h7, h8, h9, h11,
      locations_check_for_cyclic_dependencies, h10]

/-- Witness for claim C9: a headerless payload with one user is parsed and
imported by update_users. -/
theorem claim9_witness :
    update_users envW ⟨"u", Option.none⟩
      (PyVal.dict [("users", PyVal.list [PyVal.str "u1"])]) =
      Except.ok [Event.importUser (PyVal.str "u1")] :=
  claim9_header_bypass.2.1 envW ⟨"u", Option.none⟩
    (PyVal.dict [("users", PyVal.list [PyVal.str "u1"])])
    [("users", PyVal.list [PyVal.str "u1"])] [PyVal.str "u1"] [PyVal.str "u1"]
    rfl rfl rfl rfl

lemma pyGetE_no_json (v : PyVal) (k : String) :
    pyGetE v k ≠ Except.error FedErr.invalidJSON := by
  cases v <;> simp [pyGetE]

lemma validate_version_no_json (a b : PyVal) :
    _validate_protocol_version a b ≠ Except.error FedErr.invalidJSON := by
  unfold _validate_protocol_version
  repeat' split
  all_goals simp

lemma validate_header_no_json (hd : PyVal) (c : Component) :
    _validate_header hd c ≠ Except.error FedErr.invalidJSON := by
  cases hd <;> simp [_validate_header, pyGetE]
  rename_i es
  by_cases hu : pyEqStr (dictGet es "db_uuid") c.uuid
  · simp only [hu, if_true]
    cases hpv : dictGet es "protocol_version" <;> simp [pyGetE]
    exact validate_version_no_json _ _
  · simp [hu]

lemma _get_dict_mandatory_no_json (v : PyVal) :
    _get_dict_mandatory v ≠ Except.error FedErr.invalidJSON := by
  cases v <;> simp [_get_dict_mandatory]

lemma _get_dict_default_no_json (v : PyVal) :
    _get_dict_default v ≠ Except.error FedErr.invalidJSON := by
  cases v <;> simp [_get_dict_default]

lemma _get_list_default_no_json (v : PyVal) :
    _get_list_default v ≠ Except.error FedErr.invalidJSON := by
  cases v <;> simp [_get_list_default]

lemma parseList_no_json {α β : Type} (f : α → Except String β) (l : List α) :
    parseList f l ≠ Except.error FedErr.invalidJSON := by
  induction l with
  | nil => simp [parseList]
  | cons x xs ih =>
    unfold parseList
    cases hf : f x with
    | error msg => simp
    | ok b =>
      cases hp : parseList f xs with
      | error e =>
        intro hcon
        injection hcon with he
        subst he
        exact ih hp
      | ok bs => simp

lemma check_cyclic_no_json (m : LocMap) :
    locations_check_for_cyclic_dependencies m ≠ Except.error FedErr.invalidJSON := by
  unfold locations_check_for_cyclic_dependencies
  split <;> simp

lemma parse_stage_markdown_images_no_json (env : FedEnv) (c : Component)
    (es : List (String × PyVal)) :
    parse_stage_markdown_images env c es ≠ Except.error FedErr.invalidJSON := by
  unfold parse_stage_markdown_images
  cases hg : _get_dict_default (dictGet es "markdown_images") with
  | error e =>
    intro hcon
    injection hcon with he
    subst he
    exact _get_dict_default_no_json _ hg
  | ok d => exact parseList_no_json _ _

lemma parse_stage_users_no_json (env : FedEnv) (c : Component)
    (es : List (String × PyVal)) :
    parse_stage_users env c es ≠ Except.error FedErr.invalidJSON := by
  unfold parse_stage_users
  cases hg : _get_list_default (dictGet es "users") with
  | error e =>
    intro hcon
    injection hcon with he
    subst he
    exact _get_list_default_no_json _ hg
  | ok l => exact parseList_no_json _ _

lemma parse_stage_instruments_no_json (env : FedEnv) (es : List (String × PyVal)) :
    parse_stage_instruments env es ≠ Except.error FedErr.invalidJSON := by
  unfold parse_stage_instruments
  cases hg : _get_list_default (dictGet es "instruments") with
  | error e =>
    intro hcon
    injection hcon with he
    subst he
    exact _get_list_default_no_json _ hg
  | ok l => exact parseList_no_json _ _

lemma parse_stage_action_types_no_json (env : FedEnv) (es : List (String × PyVal)) :
    parse_stage_action_types env es ≠ Except.error FedErr.invalidJSON := by
  unfold parse_stage_action_types
  cases hg : _get_list_default (dictGet es "action_types") with
  | error e =>
    intro hcon
    injection hcon with he
    subst he
    exact _get_list_default_no_json _ hg
  | ok l => exact parseList_no_json _ _

lemma parse_stage_actions_no_json (env : FedEnv) (es : List (String × PyVal)) :
    parse_stage_actions env es ≠ Except.error FedErr.invalidJSON := by
  unfold parse_stage_actions
  cases hg : _get_list_default (dictGet es "actions") with
  | error e =>
    intro hcon
    injection hcon with he
    subst he
    exact _get_list_default_no_json _ hg
  | ok l => exact parseList_no_json _ _

lemma parse_stage_location_types_no_json (env : FedEnv) (es : List (String × PyVal)) :
    parse_stage_location_types env es ≠ Except.error FedErr.invalidJSON := by
  unfold parse_stage_location_types
  cases hg : _get_list_default (dictGet es "location_types") with
  | error e =>
    intro hcon
    injection hcon with he
    subst he
    exact _get_list_default_no_json _ hg
  | ok l => exact parseList_no_json _ _

lemma parse_stage_locations_no_json (env : FedEnv) (es : List (String × PyVal)) :
    parse_stage_locations env es ≠ Except.error FedErr.invalidJSON := by
  unfold parse_stage_locations
  cases hg : _get_list_default (dictGet es "locations") with
  | error e =>
    intro hcon
    injection hcon with he
    subst he
    exact _get_list_default_no_json _ hg
  | ok l =>
    dsimp only
    cases hp : parseList env.parse_location l with
    | error e =>
      intro hcon
      injection hcon with he
      subst he
      exact parseList_no_json _ _ hp
    | ok ls => simp

lemma parse_stage_objects_no_json (env : FedEnv) (c : Component)
    (es : List (String × PyVal)) :
    parse_stage_objects env c es ≠ Except.error FedErr.invalidJSON := by
  unfold parse_stage_objects
  cases hg : _get_list_default (dictGet es "objects") with
  | error e =>
    intro hcon
    injection hcon with he
    subst he
    exact _get_list_default_no_json _ hg
  | ok l => exact parseList_no_json _ _

lemma update_users_no_json (env : FedEnv) (c : Component) (u : PyVal) :
    update_users env c u ≠ Except.error FedErr.invalidJSON := by
  unfold update_users
  cases h1 : _get_dict_mandatory u with
  | error e =>
    intro hcon
    injection hcon with he
    subst he
    exact _get_dict_mandatory_no_json _ h1
  | ok es =>
    dsimp only
    cases h2 : _validate_header (dictGet es "header") c with
    | error e =>
      intro hcon
      injection hcon with he
      subst he
      exact validate_header_no_json _ _ h2
    | ok q =>
      dsimp only
      cases h3 : _get_list_default (dictGet es "users") with
      | error e =>
        intro hcon
        injection hcon with he
        subst he
        exact _get_list_default_no_json _ h3
      | ok l =>
        dsimp only
        cases h4 : parseList (fun v => env.parse_user v c) l with
        | error e =>
          intro hcon
          injection hcon with he
          subst he
          exact parseList_no_json _ _ h4
        | ok usrs => simp

lemma update_shares_no_json (env : FedEnv) (c : Component) (u : PyVal) :
    update_shares env c u ≠ Except.error FedErr.invalidJSON := by
  unfold update_shares
  cases h1 : _get_dict_mandatory u with
  | error e =>
    intro hcon
    injection hcon with he
    subst he
    exact _get_dict_mandatory_no_json _ h1
  | ok es =>
    dsimp only
    cases h2 : _validate_header (dictGet es "header") c with
    | error e =>
      intro hcon
      injection hcon with he
      subst he
      exact validate_header_no_json _ _ h2
    | ok q =>
      dsimp only
      cases h3 : parse_stage_markdown_images env c es with
      | error e =>
        intro hcon
        injection hcon with he
        subst he
        exact parse_stage_markdown_images_no_json _ _ _ h3
      | ok mis =>
        dsimp only
        cases h4 : parse_stage_users env c es with
        | error e =>
          intro hcon
          injection hcon with he
          subst he
          exact parse_stage_users_no_json _ _ _ h4
        | ok usrs =>
          dsimp only
          cases h5 : parse_stage_instruments env es with
          | error e =>
            intro hcon
            injection hcon with he
            subst he
            exact parse_stage_instruments_no_json _ _ h5
          | ok ins =>
            dsimp only
            cases h6 : parse_stage_action_types env es with
            | error e =>
              intro hcon
              injection hcon with he
              subst he
              exact parse_stage_action_types_no_json _ _ h6
            | ok ats =>
              dsimp only
              cases h7 : parse_stage_actions env es with
              | error e =>
                intro hcon
                injection hcon with he
                subst he
                exact parse_stage_actions_no_json _ _ h7
              | ok acts =>
                dsimp only
                cases h8 : parse_stage_location_types env es with
                | error e =>
                  intro hcon
                  injection hcon with he
                  subst he
                  exact parse_stage_location_types_no_json _ _ h8
                | ok lts =>
                  dsimp only
                  cases h9 : parse_stage_locations env es with
                  | error e =>
                    intro hcon
                    injection hcon with he
                    subst he
                    exact parse_stage_locations_no_json _ _ h9
                  | ok locs =>
                    dsimp only
                    cases h10 : locations_check_for_cyclic_dependencies locs with
                    | error e =>
                      intro hcon
                      injection hcon with he
                      subst he
                      exact check_cyclic_no_json _ h10
                    | ok q2 =>
                      dsimp only
                      cases h11 : parse_stage_objects env c es with
                      | error e =>
                        intro hcon
                        injection hcon with he
                        subst he
                        exact parse_stage_objects_no_json _ _ _ h11
                      | ok objs => simp

lemma users_fetch_result_no_json (r : Except FedErr PyVal) :
    users_fetch_result r ≠ Except.error FedErr.invalidJSON := by
  cases r with
  | ok v => simp [users_fetch_result]
  | error e => cases e <;> simp [users_fetch_result]

lemma objects_fetch_result_no_json (r : Except FedErr PyVal) :
    objects_fetch_result r ≠ Except.error FedErr.invalidJSON := by
  cases r with
  | ok v => simp [objects_fetch_result]
  | error e => cases e <;> simp [objects_fetch_result]

/-- Claim C10: import_updates never ends a round with InvalidJSONError: a
non-JSON body from either fetch is re-raised as InvalidDataExportError
with the message of update.py lines 92 and 100, and no later phase can
produce InvalidJSONError. -/
theorem claim10_no_invalid_json :
    ∀ (env : FedEnv) (component : Component),
      (import_updates env component).2 ≠ some FedErr.invalidJSON := by
  intro env c
  unfold import_updates
  cases hf : env.federation_uuid with
  | none => simp
  | some fu =>
    dsimp only
    cases hu : users_fetch_result env.fetch_users with
    | error e =>
      intro hcon
      injection hcon with he
      subst he
      exact users_fetch_result_no_json _ hu
    | ok usersOpt =>
      dsimp only
      cases ho : objects_fetch_result env.fetch_objects with
      | error e =>
        intro hcon
        injection hcon with he
        subst he
        exact objects_fetch_result_no_json _ ho
      | ok updates =>
        dsimp only
        cases usersOpt with
        | none => simp
        | some users =>
          dsimp only
          cases hU : update_users env c users with
          | error e =>
            intro hcon
            injection hcon with he
            subst he
            exact update_users_no_json _ _ _ hU
          | ok evsU =>
            dsimp only
            cases hS : update_shares env c updates with
            | error e =>
              intro hcon
              simp only [] at hcon
              injection hcon with he
              subst he
              exact update_shares_no_json _ _ _ hS
            | ok evsS => simp

lemma mem_keys_of_mem {m : LocMap} {k : LocKey} {v : ParsedLocation}
    (h : (k, v) ∈ m) : k ∈ keysOf m :=
  List.mem_map_of_mem Prod.fst h

lemma lookupLoc_mem {m : LocMap} {k : LocKey} {v : ParsedLocation}
    (h : lookupLoc m k = some v) : (k, v) ∈ m := by
  induction m with
  | nil => simp [lookupLoc] at h
  | cons e rest ih =>
    obtain ⟨k', v'⟩ := e
    by_cases hk : k' = k
    · subst hk
      simp only [lookupLoc, eq_self_iff_true, if_true, Option.some.injEq] at h
      subst h
      exact List.mem_cons_self _ _
    · simp only [lookupLoc, if_neg hk] at h
      exact List.mem_cons_of_mem _ (ih h)

lemma lookup_isSome_iff {m : LocMap} {k : LocKey} :
    (lookupLoc m k).isSome = true ↔ k ∈ keysOf m := by
  induction m with
  | nil => simp [lookupLoc, keysOf]
  | cons e rest ih =>
    obtain ⟨k', v'⟩ := e
    by_cases hk : k' = k
    · subst hk
      simp [lookupLoc, keysOf]
    · have hk2 : ¬(k = k') := fun h => hk h.symm
      simp [lookupLoc, hk, hk2, keysOf] at ih ⊢
      exact ih

lemma lookup_none_iff {m : LocMap} {k : LocKey} :
    lookupLoc m k = Option.none ↔ k ∉ keysOf m := by
  rw [← lookup_isSome_iff]
  cases lookupLoc m k <;> simp

lemma mem_lookup_of_nodup {m : LocMap} (hnd : NodupKeys m) {k : LocKey}
    {v : ParsedLocation} (h : (k, v) ∈ m) : lookupLoc m k = some v := by
  induction m with
  | nil => simp at h
  | cons e rest ih =>
    obtain ⟨k', v'⟩ := e
    have hnd' : (k' ∉ keysOf rest) ∧ NodupKeys rest := by
      simpa [NodupKeys, keysOf] using hnd
    rcases List.mem_cons.mp h with h | h
    · obtain ⟨h1, h2⟩ := Prod.mk.injEq .. ▸ h
      subst h1
      subst h2
      simp [lookupLoc]
    · by_cases hk : k' = k
      · subst hk
        exact absurd (mem_keys_of_mem h) hnd'.1
      · simpa [lookupLoc, hk] using ih hnd'.2 h

lemma eraseLoc_sublist (m : LocMap) (k : LocKey) : List.Sublist (eraseLoc m k) m := by
  induction m with
  | nil => simp [eraseLoc]
  | cons e rest ih =>
    obtain ⟨k', v'⟩ := e
    by_cases hk : k' = k
    · simp only [eraseLoc, if_pos hk]
      exact List.sublist_cons_self _ _
    · simp only [eraseLoc, if_neg hk]
      exact List.Sublist.cons₂ _ ih

lemma nodup_eraseLoc {m : LocMap} (hnd : NodupKeys m) (k : LocKey) :
    NodupKeys (eraseLoc m k) :=
  List.Nodup.sublist (List.Sublist.map Prod.fst (eraseLoc_sublist m k)) hnd

lemma lookup_eraseLoc {m : LocMap} (hnd : NodupKeys m) (k k' : LocKey) :
    lookupLoc (eraseLoc m k) k' =
      if k' = k then Option.none else lookupLoc m k' := by
  induction m with
  | nil => simp [eraseLoc, lookupLoc]
  | cons e rest ih =>
    obtain ⟨a, v⟩ := e
    have hnd' : (a ∉ keysOf rest) ∧ NodupKeys rest := by
      simpa [NodupKeys, keysOf] using hnd
    by_cases ha : a = k
    · subst ha
      simp only [eraseLoc, if_pos rfl]
      by_cases hk' : k' = a
      · subst hk'
        simp [lookup_none_iff.mpr hnd'.1]
      · have ha' : ¬(a = k') := fun h => hk' h.symm
        simp [lookupLoc, hk', ha']
    · simp only [eraseLoc, if_neg ha]
      by_cases hk' : a = k'
      · subst hk'
        simp [lookupLoc, ha]
      · simp [lookupLoc, hk', ih hnd'.2]

lemma submap_eraseLoc {m : LocMap} (hnd : NodupKeys m) (k : LocKey) :
    SubMapOf (eraseLoc m k) m := by
  intro k' v h
  rw [lookup_eraseLoc hnd k k'] at h
  by_cases hk : k' = k
  · simp [hk] at h
  · simpa [hk] using h

lemma submap_refl (m : LocMap) : SubMapOf m m := fun _ _ h => h

lemma submap_trans {m₁ m₂ m₃ : LocMap} (h1 : SubMapOf m₁ m₂) (h2 : SubMapOf m₂ m₃) :
    SubMapOf m₁ m₃ := fun k v h => h2 k v (h1 k v h)

lemma mem_keys_eraseLoc {m : LocMap} (hnd : NodupKeys m) (k k' : LocKey) :
    k' ∈ keysOf (eraseLoc m k) ↔ k' ∈ keysOf m ∧ k' ≠ k := by
  rw [← lookup_isSome_iff, ← lookup_isSome_iff, lookup_eraseLoc hnd k k']
  by_cases hk : k' = k <;> simp [hk]

lemma length_keysOf (m : LocMap) : (keysOf m).length = m.length :=
  List.length_map _ _

lemma length_eraseLoc {m : LocMap} {k : LocKey} (h : k ∈ keysOf m) :
    (eraseLoc m k).length = m.length - 1 := by
  induction m with
  | nil => simp [keysOf] at h
  | cons e rest ih =>
    obtain ⟨a, v⟩ := e
    by_cases ha : a = k
    · simp [eraseLoc, ha]
    · have hmem : k ∈ keysOf rest := by
        rcases List.mem_cons.mp h with h | h
        · exact absurd h.symm ha
        · exact h
      have hpos : 0 < rest.length := by
        have := List.length_pos_of_mem hmem
        rw [length_keysOf] at this
        exact this
      simp only [eraseLoc, if_neg ha, List.length_cons, ih hmem]
      omega

lemma eraseAllKeys_nil (m : LocMap) : eraseAllKeys m [] = m := rfl

lemma eraseAllKeys_cons (m : LocMap) (k : LocKey) (ks : List LocKey) :
    eraseAllKeys m (k :: ks) = eraseAllKeys (eraseLoc m k) ks := rfl

lemma eraseLoc_comm (m : LocMap) (a b : LocKey) :
    eraseLoc (eraseLoc m a) b = eraseLoc (eraseLoc m b) a := by
  by_cases hab : a = b
  · subst hab
    rfl
  · induction m with
    | nil => rfl
    | cons e rest ih =>
      obtain ⟨k, v⟩ := e
      by_cases hka : k = a
      · subst hka
        have hkb : ¬(k = b) := hab
        simp [eraseLoc, hkb]
      · by_cases hkb : k = b
        · subst hkb
          have hka' : ¬(k = a) := fun h => hka h
          simp [eraseLoc, hka']
        · simp [eraseLoc, hka, hkb, ih]

lemma eraseAllKeys_eraseLoc_comm (p : LocKey) (ks : List LocKey) :
    ∀ m : LocMap, eraseAllKeys (eraseLoc m p) ks = eraseLoc (eraseAllKeys m ks) p := by
  induction ks with
  | nil => intro m; rfl
  | cons k ks ih =>
    intro m
    calc eraseAllKeys (eraseLoc m p) (k :: ks)
        = eraseAllKeys (eraseLoc (eraseLoc m p) k) ks := rfl
      _ = eraseAllKeys (eraseLoc (eraseLoc m k) p) ks := by rw [eraseLoc_comm]
      _ = eraseLoc (eraseAllKeys (eraseLoc m k) ks) p := ih _
      _ = eraseLoc (eraseAllKeys m (k :: ks)) p := rfl

lemma eraseAllKeys_append (m : LocMap) (ks₁ ks₂ : List LocKey) :
    eraseAllKeys m (ks₁ ++ ks₂) = eraseAllKeys (eraseAllKeys m ks₁) ks₂ := by
  simp [eraseAllKeys, List.foldl_append]

lemma nodup_eraseAllKeys {m : LocMap} (hnd : NodupKeys m) (ks : List LocKey) :
    NodupKeys (eraseAllKeys m ks) := by
  induction ks generalizing m with
  | nil => exact hnd
  | cons k ks ih => exact ih (nodup_eraseLoc hnd k)

lemma lookup_eraseAllKeys {m : LocMap} (hnd : NodupKeys m) (ks : List LocKey)
    (k' : LocKey) :
    lookupLoc (eraseAllKeys m ks) k' =
      if k' ∈ ks then Option.none else lookupLoc m k' := by
  induction ks generalizing m with
  | nil => simp [eraseAllKeys]
  | cons k ks ih =>
    rw [eraseAllKeys_cons, ih (nodup_eraseLoc hnd k)]
    by_cases hmem : k' ∈ ks
    · simp [hmem]
    · by_cases hk : k' = k
      · subst hk
        simp [hmem, lookup_eraseLoc hnd]
      · simp [hmem, hk, lookup_eraseLoc hnd]

lemma submap_eraseAllKeys {m : LocMap} (hnd : NodupKeys m) (ks : List LocKey) :
    SubMapOf (eraseAllKeys m ks) m := by
  intro k' v h
  rw [lookup_eraseAllKeys hnd ks k'] at h
  by_cases hmem : k' ∈ ks
  · simp [hmem] at h
  · simpa [hmem] using h

lemma mem_keys_eraseAllKeys {m : LocMap} (hnd : NodupKeys m) (ks : List LocKey)
    (k' : LocKey) :
    k' ∈ keysOf (eraseAllKeys m ks) ↔ k' ∈ keysOf m ∧ k' ∉ ks := by
  rw [← lookup_isSome_iff, ← lookup_isSome_iff, lookup_eraseAllKeys hnd]
  by_cases hmem : k' ∈ ks <;> simp [hmem]

lemma length_eraseAllKeys {m : LocMap} (hnd : NodupKeys m) {ks : List LocKey}
    (hks : ks.Nodup) (hsub : ∀ x ∈ ks, x ∈ keysOf m) :
    (eraseAllKeys m ks).length = m.length - ks.length := by
  induction ks generalizing m with
  | nil => simp [eraseAllKeys]
  | cons k ks ih =>
    have hkm : k ∈ keysOf m := hsub k (by simp)
    have hks' : ks.Nodup := (List.nodup_cons.mp hks).2
    have hknot : k ∉ ks := (List.nodup_cons.mp hks).1
    have hsub' : ∀ x ∈ ks, x ∈ keysOf (eraseLoc m k) := by
      intro x hx
      rw [mem_keys_eraseLoc hnd]
      exact ⟨hsub x (by simp [hx]), fun h => hknot (h ▸ hx)⟩
    have hpos : 0 < m.length := by
      have := List.length_pos_of_mem hkm
      rw [length_keysOf] at this
      exact this
    rw [eraseAllKeys_cons, ih (nodup_eraseLoc hnd k) hks' hsub', length_eraseLoc hkm]
    simp only [List.length_cons]
    omega

lemma keys_perm_eraseLoc {m : LocMap} {k : LocKey} (h : k ∈ keysOf m) :
    (keysOf m).Perm (k :: keysOf (eraseLoc m k)) := by
  induction m with
  | nil => simp [keysOf] at h
  | cons e rest ih =>
    obtain ⟨a, v⟩ := e
    by_cases ha : a = k
    · subst ha
      simp [eraseLoc, keysOf]
    · have hmem : k ∈ keysOf rest := by
        rcases List.mem_cons.mp h with h | h
        · exact absurd h.symm ha
        · exact h
      have step1 : keysOf ((a, v) :: rest) = a :: keysOf rest := rfl
      have step2 : keysOf (eraseLoc ((a, v) :: rest) k) =
          a :: keysOf (eraseLoc rest k) := by
        simp [eraseLoc, ha, keysOf]
      rw [step1, step2]
      exact ((ih hmem).cons a).trans (List.Perm.swap k a _)

lemma keys_perm_eraseAllKeys {m : LocMap} (hnd : NodupKeys m) {ks : List LocKey}
    (hks : ks.Nodup) (hsub : ∀ x ∈ ks, x ∈ keysOf m) :
    (keysOf m).Perm (ks ++ keysOf (eraseAllKeys m ks)) := by
  induction ks generalizing m with
  | nil => simp [eraseAllKeys]
  | cons k ks ih =>
    have hkm : k ∈ keysOf m := hsub k (by simp)
    have hks' : ks.Nodup := (List.nodup_cons.mp hks).2
    have hknot : k ∉ ks := (List.nodup_cons.mp hks).1
    have hsub' : ∀ x ∈ ks, x ∈ keysOf (eraseLoc m k) := by
      intro x hx
      rw [mem_keys_eraseLoc hnd]
      exact ⟨hsub x (by simp [hx]), fun h => hknot (h ▸ hx)⟩
    exact (keys_perm_eraseLoc hkm).trans
      ((ih (nodup_eraseLoc hnd k) hks' hsub').cons k)

lemma keysOf_dictInsertLoc (m : LocMap) (k : LocKey) (v : ParsedLocation) :
    keysOf (dictInsertLoc m k v) =
      if k ∈ keysOf m then keysOf m else keysOf m ++ [k] := by
  induction m with
  | nil => simp [dictInsertLoc, keysOf]
  | cons e rest ih =>
    obtain ⟨a, w⟩ := e
    by_cases ha : a = k
    · subst ha
      simp [dictInsertLoc, keysOf]
    · have ha' : ¬(k = a) := fun h => ha h.symm
      have hins : dictInsertLoc ((a, w) :: rest) k v = (a, w) :: dictInsertLoc rest k v := by
        simp [dictInsertLoc, ha]
      rw [hins]
      have hstep : keysOf ((a, w) :: dictInsertLoc rest k v) =
          a :: keysOf (dictInsertLoc rest k v) := rfl
      rw [hstep, ih]
      by_cases hmem : k ∈ keysOf rest
      · rw [if_pos hmem, if_pos (show k ∈ keysOf ((a, w) :: rest) from
          List.mem_cons_of_mem _ hmem)]
        rfl
      · have hnot : k ∉ keysOf ((a, w) :: rest) := by
          intro hcon
          rcases List.mem_cons.mp hcon with h | h
          · exact ha' h
          · exact hmem h
        rw [if_neg hmem, if_neg hnot]
        rfl

lemma nodup_dictInsertLoc {m : LocMap} (hnd : NodupKeys m) (k : LocKey)
    (v : ParsedLocation) : NodupKeys (dictInsertLoc m k v) := by
  by_cases hmem : k ∈ keysOf m
  · unfold NodupKeys
    rw [keysOf_dictInsertLoc, if_pos hmem]
    exact hnd
  · have hgoal : (keysOf m ++ [k]).Nodup := by
      rw [List.nodup_append]
      refine ⟨hnd, List.nodup_singleton k, ?_⟩
      intro x hx hx'
      simp at hx'
      subst hx'
      exact hmem hx
    unfold NodupKeys
    rw [keysOf_dictInsertLoc, if_neg hmem]
    exact hgoal

lemma keyCoherent_cons {e : LocKey × ParsedLocation} {rest : LocMap}
    (h : KeyCoherent (e :: rest)) : KeyCoherent rest :=
  fun x hx => h x (List.mem_cons_of_mem _ hx)

lemma keyCoherent_dictInsertLoc {m : LocMap} (hco : KeyCoherent m)
    (v : ParsedLocation) : KeyCoherent (dictInsertLoc m (locKey v) v) := by
  induction m with
  | nil =>
    intro e he
    simp [dictInsertLoc] at he
    simp [he]
  | cons e0 rest ih =>
    obtain ⟨a, w⟩ := e0
    by_cases ha : a = locKey v
    · subst ha
      intro e he
      simp only [dictInsertLoc, eq_self_iff_true, if_true] at he
      rcases List.mem_cons.mp he with h | h
      · simp [h]
      · exact hco _ (List.mem_cons_of_mem _ h)
    · intro e he
      simp only [dictInsertLoc, if_neg ha] at he
      rcases List.mem_cons.mp he with h | h
      · subst h
        exact hco _ (List.mem_cons_self _ _)
      · exact ih (keyCoherent_cons hco) _ h

lemma build_loc_map_aux (ls : List ParsedLocation) :
    ∀ m : LocMap, NodupKeys m → KeyCoherent m →
      NodupKeys (ls.foldl (fun m l => dictInsertLoc m (locKey l) l) m) ∧
        KeyCoherent (ls.foldl (fun m l => dictInsertLoc m (locKey l) l) m) := by
  induction ls with
  | nil => intro m h1 h2; exact ⟨h1, h2⟩
  | cons l ls ih =>
    intro m h1 h2
    exact ih _ (nodup_dictInsertLoc h1 _ _) (keyCoherent_dictInsertLoc h2 l)

lemma build_loc_map_nodup (ls : List ParsedLocation) :
    NodupKeys (build_loc_map ls) :=
  (build_loc_map_aux ls [] (by simp [NodupKeys, keysOf]) (by intro e he; simp at he)).1

lemma build_loc_map_coherent (ls : List ParsedLocation) :
    KeyCoherent (build_loc_map ls) :=
  (build_loc_map_aux ls [] (by simp [NodupKeys, keysOf]) (by intro e he; simp at he)).2

lemma stepParent_none_eq (m : LocMap) : stepParent m Option.none = Option.none := rfl

lemma iter_step_none (m : LocMap) (n : Nat) :
    (stepParent m)^[n] Option.none = Option.none := by
  induction n with
  | zero => rfl
  | succ n ih => rw [Function.iterate_succ_apply, stepParent_none_eq, ih]

lemma iterParent_isSome_of_le {m : LocMap} {n : Nat} {k k' : LocKey}
    (h : iterParent m n k = some k') {i : Nat} (hi : i ≤ n) :
    ∃ k'', iterParent m i k = some k'' := by
  obtain ⟨j, rfl⟩ := Nat.exists_eq_add_of_le hi
  rw [show i + j = j + i from Nat.add_comm i j] at h
  rw [iterParent, Function.iterate_add_apply] at h
  cases hx : (stepParent m)^[i] (some k) with
  | none =>
    rw [hx, iter_step_none] at h
    simp at h
  | some k'' => exact ⟨k'', hx⟩

lemma inBatchParent_submap {m mtop : LocMap} (hsub : SubMapOf m mtop) {k p : LocKey}
    (h : inBatchParent m k = some p) : inBatchParent mtop k = some p := by
  unfold inBatchParent at h ⊢
  cases hl : lookupLoc m k with
  | none => rw [hl] at h; simp at h
  | some l =>
    rw [hl] at h
    rw [hsub _ _ hl]
    dsimp only at h ⊢
    cases hp : l.parent with
    | none => rw [hp] at h; simp at h
    | some p' =>
      rw [hp] at h
      dsimp only at h ⊢
      by_cases hps : (lookupLoc m p').isSome
      · rw [if_pos hps] at h
        obtain ⟨v, hv⟩ := Option.isSome_iff_exists.mp hps
        rw [if_pos (show (lookupLoc mtop p').isSome from by rw [hsub _ _ hv]; rfl)]
        exact h
      · rw [if_neg hps] at h
        simp at h

lemma iterParent_submap {m mtop : LocMap} (hsub : SubMapOf m mtop) :
    ∀ (n : Nat) (k k' : LocKey), iterParent m n k = some k' →
      iterParent mtop n k = some k' := by
  intro n
  induction n with
  | zero => intro k k' h; exact h
  | succ n ih =>
    intro k k' h
    rw [iterParent, Function.iterate_succ_apply] at h ⊢
    cases hb : inBatchParent m k with
    | none =>
      rw [show stepParent m (some k) = inBatchParent m k from rfl, hb,
        iter_step_none] at h
      simp at h
    | some p =>
      rw [show stepParent m (some k) = inBatchParent m k from rfl, hb] at h
      rw [show stepParent mtop (some k) = inBatchParent mtop k from rfl,
        inBatchParent_submap hsub hb]
      exact ih p k' h

lemma noCycle_submap {m mtop : LocMap} (hsub : SubMapOf m mtop) (hnc : NoCycle mtop) :
    NoCycle m :=
  fun k c hc hcon => hnc k c hc (iterParent_submap hsub c k k hcon)

lemma inBatchParent_mem {m : LocMap} {k p : LocKey} (h : inBatchParent m k = some p) :
    p ∈ keysOf m ∧ k ∈ keysOf m := by
  unfold inBatchParent at h
  cases hl : lookupLoc m k with
  | none => rw [hl] at h; simp at h
  | some l =>
    rw [hl] at h
    dsimp only at h
    cases hp : l.parent with
    | none => rw [hp] at h; simp at h
    | some p' =>
      rw [hp] at h
      dsimp only at h
      by_cases hps : (lookupLoc m p').isSome
      · rw [if_pos hps] at h
        injection h with h'
        subst h'
        exact ⟨lookup_isSome_iff.mp hps,
          lookup_isSome_iff.mp (show (lookupLoc m k).isSome from by rw [hl]; rfl)⟩
      · rw [if_neg hps] at h
        simp at h

lemma hasCycleB_false_noCycle {m : LocMap} (h : hasCycleB m = false) : NoCycle m := by
  intro k c hc hcon
  have hex : ∃ d, 1 ≤ d ∧ iterParent m d k = some k := ⟨c, hc, hcon⟩
  have hd := Nat.find_spec hex
  have hmin : ∀ i, i < Nat.find hex → ¬(1 ≤ i ∧ iterParent m i k = some k) :=
    fun i hi => Nat.find_min hex hi
  set d := Nat.find hex with hdd
  have hk0 : k ∈ keysOf m := by
    cases hb : inBatchParent m k with
    | none =>
      obtain ⟨j, hj⟩ := Nat.exists_eq_add_of_le hd.1
      rw [hj, Nat.add_comm, iterParent, Function.iterate_add_apply,
        Function.iterate_one,
        show stepParent m (some k) = inBatchParent m k from rfl, hb,
        iter_step_none] at hd
      simp at hd
    | some p => exact (inBatchParent_mem hb).2
  have hsome : ∀ i, i ≤ d → ∃ ki, iterParent m i k = some ki :=
    fun i hi => iterParent_isSome_of_le hd.2 hi
  have hgen : ∀ i j, i < j → j < d → iterParent m i k = iterParent m j k → False := by
    intro i j hij hjd heq
    have e1 : (stepParent m)^[d - j] (iterParent m j k) = some k := by
      have e0 : d - j + j = d := Nat.sub_add_cancel (le_of_lt hjd)
      have := hd.2
      rw [← e0, iterParent, Function.iterate_add_apply] at this
      exact this
    have h1 : iterParent m (i + (d - j)) k = some k := by
      rw [iterParent, Nat.add_comm, Function.iterate_add_apply]
      rw [show (stepParent m)^[i] (some k) = iterParent m i k from rfl, heq]
      exact e1
    exact hmin (i + (d - j)) (by omega) ⟨by omega, h1⟩
  have hinj : ∀ i j, i < d → j < d → iterParent m i k = iterParent m j k → i = j := by
    intro i j hi hj heq
    rcases Nat.lt_trichotomy i j with hlt | heqij | hgt
    · exact (hgen i j hlt hj heq).elim
    · exact heqij
    · exact (hgen j i hgt hi heq.symm).elim
  have hKL_nodup : ((List.range d).map (fun i => (iterParent m i k).getD k)).Nodup := by
    refine List.Nodup.map_on ?_ (List.nodup_range d)
    intro i hi j hj heq
    rw [List.mem_range] at hi hj
    obtain ⟨ki, hki⟩ := hsome i (le_of_lt hi)
    obtain ⟨kj, hkj⟩ := hsome j (le_of_lt hj)
    rw [hki, hkj] at heq
    simp at heq
    exact hinj i j hi hj (by rw [hki, hkj, heq])
  have hKL_sub : ∀ x ∈ (List.range d).map (fun i => (iterParent m i k).getD k),
      x ∈ keysOf m := by
    intro x hx
    obtain ⟨i, hi, hgi⟩ := List.mem_map.mp hx
    rw [List.mem_range] at hi
    obtain ⟨ki, hki⟩ := hsome i (le_of_lt hi)
    rw [hki] at hgi
    simp at hgi
    subst hgi
    cases i with
    | zero =>
      have : ki = k := by
        have : iterParent m 0 k = some k := rfl
        rw [this] at hki
        injection hki with h'
        exact h'.symm
      rw [this]
      exact hk0
    | succ i' =>
      rw [iterParent, Function.iterate_succ_apply'] at hki
      cases hprev : (stepParent m)^[i'] (some k) with
      | none =>
        rw [hprev] at hki
        simp [stepParent] at hki
      | some kp =>
        rw [hprev] at hki
        exact (inBatchParent_mem hki).1
  have hlen : d ≤ m.length := by
    have h1 : ((List.range d).map (fun i => (iterParent m i k).getD k)).length = d := by
      simp
    have h2 : ((List.range d).map (fun i => (iterParent m i k).getD k)).toFinset.card =
        d := by
      rw [List.toFinset_card_of_nodup hKL_nodup, h1]
    have h3 : ((List.range d).map (fun i => (iterParent m i k).getD k)).toFinset ⊆
        (keysOf m).toFinset := by
      intro x hx
      rw [List.mem_toFinset] at hx
      rw [List.mem_toFinset]
      exact hKL_sub x hx
    have h4 := Finset.card_le_card h3
    have h5 := List.toFinset_card_le (keysOf m)
    rw [h2] at h4
    rw [length_keysOf] at h5
    omega
  have hentry : ∃ v, (k, v) ∈ m := by
    obtain ⟨e, hmem, heq⟩ := List.mem_map.mp hk0
    exact ⟨e.2, by rw [← heq]; exact hmem⟩
  obtain ⟨v, hv⟩ := hentry
  have htrue : hasCycleB m = true := by
    unfold hasCycleB
    rw [List.any_eq_true]
    refine ⟨(k, v), hv, ?_⟩
    rw [List.any_eq_true]
    refine ⟨d - 1, List.mem_range.mpr (by omega), ?_⟩
    simp only [decide_eq_true_eq]
    have e : d - 1 + 1 = d := by omega
    rw [e]
    exact hd.2
  rw [h] at htrue
  exact absurd htrue (by simp)

lemma reaches_iter {mtop : LocMap} :
    ∀ {x : ParsedLocation} {q : LocKey}, Reaches mtop x q →
      ∀ {kx : LocKey}, lookupLoc mtop kx = some x → q ∈ keysOf mtop →
        ∃ c, 1 ≤ c ∧ iterParent mtop c kx = some q := by
  intro x q hr
  induction hr with
  | parent hp =>
    intro kx hx hq
    refine ⟨1, le_refl 1, ?_⟩
    unfold iterParent
    rw [Function.iterate_one]
    show inBatchParent mtop kx = _
    unfold inBatchParent
    rw [hx]
    dsimp only
    rw [hp]
    dsimp only
    rw [if_pos (lookup_isSome_iff.mpr hq)]
  | step hp hl hrr ih =>
    rename_i loc p ploc q'
    intro kx hx hq
    obtain ⟨c, hc1, hc2⟩ := ih hl hq
    refine ⟨c + 1, by omega, ?_⟩
    rw [iterParent, Function.iterate_succ_apply]
    have hstep : stepParent mtop (some kx) = some p := by
      show inBatchParent mtop kx = some p
      unfold inBatchParent
      rw [hx]
      dsimp only
      rw [hp]
      dsimp only
      rw [if_pos (show (lookupLoc mtop p).isSome from by rw [hl]; rfl)]
    rw [hstep]
    exact hc2

lemma reaches_extend {mtop : LocMap} {x : ParsedLocation} {kb : LocKey}
    (hr : Reaches mtop x kb) :
    ∀ {b : ParsedLocation} {q : LocKey}, lookupLoc mtop kb = some b →
      b.parent = some q → Reaches mtop x q := by
  induction hr with
  | parent hp =>
    intro b q hb hq
    exact Reaches.step hp hb (Reaches.parent hq)
  | step hp hl hrr ih =>
    intro b q hb hq
    exact Reaches.step hp hl (ih hb hq)

lemma pord_cons {m : LocMap} {s : List LocKey} {x : ParsedLocation}
    {l : List ParsedLocation} :
    POrd m s (x :: l) ↔
      ((∀ q, x.parent = some q → q ∈ s ∨ lookupLoc m q = Option.none) ∧
        POrd m (locKey x :: s) l) :=
  Iff.rfl

lemma pord_lift {m m0 : LocMap} :
    ∀ {l : List ParsedLocation} {s s' : List LocKey},
      (∀ y, y ∈ s → y ∈ s') →
      (∀ q, lookupLoc m q = Option.none → q ∈ s' ∨ lookupLoc m0 q = Option.none) →
      POrd m s l → POrd m0 s' l := by
  intro l
  induction l with
  | nil => intro s s' _ _ _; trivial
  | cons x l ih =>
    intro s s' hss hmap h
    obtain ⟨hx, ht⟩ := pord_cons.mp h
    refine pord_cons.mpr ⟨fun q hq => ?_,
      ih ?_ (fun q hq => (hmap q hq).imp_left (fun h => List.mem_cons.mpr (Or.inr h))) ht⟩
    · rcases hx q hq with h' | h'
      · exact Or.inl (hss q h')
      · exact hmap q h'
    · intro y hy
      rcases List.mem_cons.mp hy with hy | hy
      · exact List.mem_cons.mpr (Or.inl hy)
      · exact List.mem_cons.mpr (Or.inr (hss y hy))

lemma pord_erase_to {m : LocMap} (hnd : NodupKeys m) {p : LocKey} :
    ∀ {l : List ParsedLocation} {s : List LocKey},
      POrd (eraseLoc m p) s l →
      (∀ x ∈ l, ∀ q, x.parent = some q → q ≠ p) →
      POrd m s l := by
  intro l
  induction l with
  | nil => intro s _ _; trivial
  | cons x l ih =>
    intro s h hnp
    obtain ⟨hx, ht⟩ := pord_cons.mp h
    refine pord_cons.mpr ⟨fun q hq => ?_, ih ht ?_⟩
    · rcases hx q hq with h' | h'
      · exact Or.inl h'
      · right
        rw [lookup_eraseLoc hnd] at h'
        have hqp : ¬(q = p) := hnp x (by simp) q hq
        rwa [if_neg hqp] at h'
    · intro y hy q hq
      exact hnp y (by simp [hy]) q hq

lemma pord_append {m : LocMap} :
    ∀ {l₁ l₂ : List ParsedLocation} {s : List LocKey},
      POrd m s l₁ → POrd m (l₁.map locKey ++ s) l₂ → POrd m s (l₁ ++ l₂) := by
  intro l₁
  induction l₁ with
  | nil => intro l₂ s _ h2; exact h2
  | cons x l₁ ih =>
    intro l₂ s h1 h2
    obtain ⟨hx, ht⟩ := pord_cons.mp h1
    refine pord_cons.mpr ⟨hx, ih ht (pord_lift ?_ (fun q h => Or.inr h) h2)⟩
    intro y hy
    simp only [List.map_cons, List.cons_append, List.mem_cons, List.mem_append] at hy ⊢
    tauto

lemma pord_snoc {m : LocMap} {l : List ParsedLocation} {s : List LocKey}
    {y : ParsedLocation} (h : POrd m s l)
    (hy : ∀ q, y.parent = some q →
      q ∈ l.map locKey ∨ q ∈ s ∨ lookupLoc m q = Option.none) :
    POrd m s (l ++ [y]) := by
  refine pord_append h (pord_cons.mpr ⟨fun q hq => ?_, trivial⟩)
  rcases hy q hq with h' | h' | h'
  · exact Or.inl (List.mem_append.mpr (Or.inl h'))
  · exact Or.inl (List.mem_append.mpr (Or.inr h'))
  · exact Or.inr h'

lemma pord_to_split {m : LocMap} :
    ∀ {out : List ParsedLocation} {seen : List LocKey}, POrd m seen out →
      ∀ (l₁ : List ParsedLocation) (x : ParsedLocation) (l₂ : List ParsedLocation),
        out = l₁ ++ x :: l₂ → ∀ q, x.parent = some q →
          q ∈ l₁.map locKey ∨ q ∈ seen ∨ lookupLoc m q = Option.none := by
  intro out
  induction out with
  | nil =>
    intro seen _ l₁ x l₂ heq
    exact absurd heq (by simp)
  | cons z out ih =>
    intro seen h l₁ x l₂ heq q hq
    obtain ⟨hz, ht⟩ := pord_cons.mp h
    cases l₁ with
    | nil =>
      simp only [List.nil_append] at heq
      injection heq with h1 h2
      subst h1
      rcases hz q hq with h' | h'
      · exact Or.inr (Or.inl h')
      · exact Or.inr (Or.inr h')
    | cons w l₁ =>
      simp only [List.cons_append] at heq
      injection heq with h1 h2
      subst h1
      rcases ih ht l₁ x l₂ h2 q hq with h' | h' | h'
      · exact Or.inl (by simp [h'])
      · rcases List.mem_cons.mp h' with h'' | h''
        · exact Or.inl (by simp [h''])
        · exact Or.inr (Or.inl h'')
      · exact Or.inr (Or.inr h')

lemma keyCoherent_of_submap {m m0 : LocMap} (hco : KeyCoherent m0)
    (hnd : NodupKeys m) (hsub : SubMapOf m m0) : KeyCoherent m := by
  intro e he
  obtain ⟨k, v⟩ := e
  exact hco _ (lookupLoc_mem (hsub _ _ (mem_lookup_of_nodup hnd he)))

lemma import_location_spec :
    ∀ (fuel : Nat) (loc : ParsedLocation) (m mtop : LocMap),
      m.length ≤ fuel →
      NodupKeys mtop → KeyCoherent mtop → NoCycle mtop →
      NodupKeys m → SubMapOf m mtop →
      (∀ q, Reaches mtop loc q → q ∈ keysOf mtop → q ∈ keysOf m) →
      ∃ pre : List ParsedLocation,
        (import_location fuel loc m).1 = pre ++ [loc] ∧
        (∀ x ∈ pre, lookupLoc m (locKey x) = some x) ∧
        (pre.map locKey).Nodup ∧
        (import_location fuel loc m).2 = eraseAllKeys m (pre.map locKey) ∧
        (∀ x ∈ pre, Reaches mtop loc (locKey x)) ∧
        POrd m [] ((import_location fuel loc m).1) := by
  intro fuel
  induction fuel with
  | zero =>
    intro loc m mtop hlen hndt hcot hnct hnd hsub hreach
    have hm : m = [] := List.length_eq_zero.mp (Nat.le_zero.mp hlen)
    subst hm
    refine ⟨[], rfl, by simp, by simp, rfl, by simp, ?_⟩
    exact pord_cons.mpr ⟨fun q hq => Or.inr rfl, trivial⟩
  | succ fuel ih =>
    intro loc m mtop hlen hndt hcot hnct hnd hsub hreach
    cases hp : loc.parent with
    | none =>
      have hres1 : (import_location (fuel + 1) loc m).1 = [loc] := by
        simp [import_location, hp]
      have hres2 : (import_location (fuel + 1) loc m).2 = m := by
        simp [import_location, hp]
      refine ⟨[], by rw [hres1]; rfl, by simp, by simp, by rw [hres2]; rfl, by simp, ?_⟩
      rw [hres1]
      refine pord_cons.mpr ⟨fun q hq => ?_, trivial⟩
      rw [hp] at hq
      exact absurd hq (by simp)
    | some p =>
      cases hl : lookupLoc m p with
      | none =>
        have hres1 : (import_location (fuel + 1) loc m).1 = [loc] := by
          simp [import_location, hp, hl]
        have hres2 : (import_location (fuel + 1) loc m).2 = m := by
          simp [import_location, hp, hl]
        refine ⟨[], by rw [hres1]; rfl, by simp, by simp, by rw [hres2]; rfl, by simp, ?_⟩
        rw [hres1]
        refine pord_cons.mpr ⟨fun q hq => ?_, trivial⟩
        rw [hp] at hq
        injection hq with h'
        subst h'
        exact Or.inr hl
      | some ploc =>
        have hres1 : (import_location (fuel + 1) loc m).1 =
            (import_location fuel ploc (eraseLoc m p)).1 ++ [loc] := by
          simp [import_location, hp, hl]
        have hres2 : (import_location (fuel + 1) loc m).2 =
            (import_location fuel ploc (eraseLoc m p)).2 := by
          simp [import_location, hp, hl]
        have hpm : p ∈ keysOf m :=
          lookup_isSome_iff.mp (show (lookupLoc m p).isSome from by rw [hl]; rfl)
        have hlt : lookupLoc mtop p = some ploc := hsub _ _ hl
        have hpt : p ∈ keysOf mtop :=
          lookup_isSome_iff.mp (show (lookupLoc mtop p).isSome from by rw [hlt]; rfl)
        have hpk : p = locKey ploc := hcot _ (lookupLoc_mem hlt)
        have hlen' : (eraseLoc m p).length ≤ fuel := by
          rw [length_eraseLoc hpm]
          have hpos : 0 < m.length := by
            have := List.length_pos_of_mem hpm
            rw [length_keysOf] at this
            exact this
          omega
        have hnd' := nodup_eraseLoc hnd p
        have hsub' := submap_trans (submap_eraseLoc hnd p) hsub
        have hreachP : ∀ q, Reaches mtop ploc q → q ∈ keysOf mtop →
            q ∈ keysOf (eraseLoc m p) := by
          intro q hr hqt
          have hql : Reaches mtop loc q := Reaches.step hp hlt hr
          have hqm : q ∈ keysOf m := hreach q hql hqt
          have hqp : q ≠ p := by
            intro hqp
            subst hqp
            obtain ⟨c, hc1, hc2⟩ := reaches_iter hr hlt hqt
            exact hnct q c hc1 hc2
          rw [mem_keys_eraseLoc hnd]
          exact ⟨hqm, hqp⟩
        obtain ⟨pre', h1, h2, h3, h4, h5, h6⟩ :=
          ih ploc (eraseLoc m p) mtop hlen' hndt hcot hnct hnd' hsub' hreachP
        refine ⟨pre' ++ [ploc], ?_, ?_, ?_, ?_, ?_, ?_⟩
        · rw [hres1, h1]
        · intro x hx
          rcases List.mem_append.mp hx with hx | hx
          · exact submap_eraseLoc hnd p _ _ (h2 x hx)
          · have hxp : x = ploc := by simpa using hx
            subst hxp
            rw [← hpk]
            exact hl
        · rw [List.map_append]
          rw [List.nodup_append]
          refine ⟨h3, by simp, ?_⟩
          intro y hy hy2
          simp at hy2
          subst hy2
          obtain ⟨x, hx, hxk⟩ := List.mem_map.mp hy
          have hlx := h2 x hx
          rw [hxk, ← hpk] at hlx
          rw [lookup_eraseLoc hnd] at hlx
          simp at hlx
        · rw [hres2, h4, List.map_append]
          rw [show List.map locKey [ploc] = [locKey ploc] from rfl]
          rw [eraseAllKeys_append]
          rw [show eraseAllKeys (eraseAllKeys m (pre'.map locKey)) [locKey ploc] =
            eraseLoc (eraseAllKeys m (pre'.map locKey)) (locKey ploc) from rfl]
          rw [← hpk]
          exact eraseAllKeys_eraseLoc_comm p (pre'.map locKey) m
        · intro x hx
          rcases List.mem_append.mp hx with hx | hx
          · exact Reaches.step hp hlt (h5 x hx)
          · have hxp : x = ploc := by simpa using hx
            subst hxp
            exact Reaches.parent (by rw [hp, hpk])
        · rw [hres1, h1]
          rw [h1] at h6
          have hnp : ∀ x ∈ pre' ++ [ploc], ∀ q, x.parent = some q → q ≠ p := by
            intro x hx q hq hqp
            rw [hqp] at hq
            have hx_mtop : lookupLoc mtop (locKey x) = some x := by
              rcases List.mem_append.mp hx with hx | hx
              · exact hsub _ _ (submap_eraseLoc hnd p _ _ (h2 x hx))
              · have hxp : x = ploc := by simpa using hx
                rw [hxp, ← hpk]
                exact hlt
            have hrp : Reaches mtop ploc p := by
              rcases List.mem_append.mp hx with hx | hx
              · exact reaches_extend (h5 x hx) hx_mtop hq
              · have hxp : x = ploc := by simpa using hx
                rw [← hxp]
                exact Reaches.parent hq
            obtain ⟨c, hc1, hc2⟩ := reaches_iter hrp hlt hpt
            exact hnct p c hc1 hc2
          have hstep1 : POrd m [] (pre' ++ [ploc]) := pord_erase_to hnd h6 hnp
          refine pord_snoc hstep1 ?_
          intro q hq
          rw [hp] at hq
          injection hq with h'
          subst h'
          left
          rw [List.map_append, hpk]
          exact List.mem_append.mpr (Or.inr (by simp))

lemma drain_locations_spec :
    ∀ (fuel : Nat) (m m0 : LocMap),
      m.length ≤ fuel →
      NodupKeys m0 → KeyCoherent m0 → NoCycle m0 →
      NodupKeys m → SubMapOf m m0 →
      ((drain_locations fuel m).map locKey).Perm (keysOf m) ∧
        (∀ x ∈ drain_locations fuel m, lookupLoc m (locKey x) = some x) ∧
        (∀ seen : List LocKey, (∀ q, q ∈ keysOf m0 → q ∉ keysOf m → q ∈ seen) →
          POrd m0 seen (drain_locations fuel m)) := by
  intro fuel
  induction fuel with
  | zero =>
    intro m m0 hlen _ _ _ _ _
    have hm : m = [] := List.length_eq_zero.mp (Nat.le_zero.mp hlen)
    subst hm
    refine ⟨by simp [drain_locations, keysOf], by simp [drain_locations],
      fun seen _ => ?_⟩
    simp only [drain_locations]
    trivial
  | succ fuel ih =>
    intro m m0 hlen hnd0 hco0 hnc0 hnd hsub
    cases m with
    | nil =>
      refine ⟨by simp [drain_locations, keysOf], by simp [drain_locations],
        fun seen _ => ?_⟩
      simp only [drain_locations]
      trivial
    | cons e rest =>
      obtain ⟨k, loc⟩ := e
      have hco : KeyCoherent ((k, loc) :: rest) := keyCoherent_of_submap hco0 hnd hsub
      have hnc : NoCycle ((k, loc) :: rest) := noCycle_submap hsub hnc0
      have hkloc : k = locKey loc := hco _ (List.mem_cons_self _ _)
      have hlk : lookupLoc ((k, loc) :: rest) k = some loc := by simp [lookupLoc]
      have hkm : k ∈ keysOf ((k, loc) :: rest) := by simp [keysOf]
      obtain ⟨pre, h1, h2, h3, h4, h5, h6⟩ :=
        import_location_spec ((k, loc) :: rest).length loc ((k, loc) :: rest)
          ((k, loc) :: rest) (le_refl _) hnd hco hnc hnd (submap_refl _)
          (fun q _ hq => hq)
      have hdrain : drain_locations (fuel + 1) ((k, loc) :: rest) =
          (import_location ((k, loc) :: rest).length loc ((k, loc) :: rest)).1 ++
            drain_locations fuel
              (eraseLoc
                (import_location ((k, loc) :: rest).length loc ((k, loc) :: rest)).2
                k) := by
        simp [drain_locations]
      rw [h1, h4] at hdrain
      rw [h1] at h6
      have hkpre : k ∉ pre.map locKey := by
        intro hcon
        obtain ⟨x, hx, hxk⟩ := List.mem_map.mp hcon
        have hrk : Reaches ((k, loc) :: rest) loc k := by
          have h5x := h5 x hx
          rwa [hxk] at h5x
        obtain ⟨c, hc1, hc2⟩ := reaches_iter hrk hlk hkm
        exact hnc k c hc1 hc2
      have hpresub : ∀ y ∈ pre.map locKey, y ∈ keysOf ((k, loc) :: rest) := by
        intro y hy
        obtain ⟨x, hx, hxk⟩ := List.mem_map.mp hy
        subst hxk
        exact lookup_isSome_iff.mp
          (show (lookupLoc ((k, loc) :: rest) (locKey x)).isSome from by
            rw [h2 x hx]; rfl)
      have hnd2 : NodupKeys (eraseAllKeys ((k, loc) :: rest) (pre.map locKey)) :=
        nodup_eraseAllKeys hnd _
      have hk2 : k ∈ keysOf (eraseAllKeys ((k, loc) :: rest) (pre.map locKey)) := by
        rw [mem_keys_eraseAllKeys hnd]
        exact ⟨hkm, hkpre⟩
      have hnd3 : NodupKeys
          (eraseLoc (eraseAllKeys ((k, loc) :: rest) (pre.map locKey)) k) :=
        nodup_eraseLoc hnd2 k
      have hsub3m : SubMapOf
          (eraseLoc (eraseAllKeys ((k, loc) :: rest) (pre.map locKey)) k)
          ((k, loc) :: rest) :=
        submap_trans (submap_eraseLoc hnd2 k) (submap_eraseAllKeys hnd _)
      have hsub3 : SubMapOf
          (eraseLoc (eraseAllKeys ((k, loc) :: rest) (pre.map locKey)) k) m0 :=
        submap_trans hsub3m hsub
      have hlen2 : (eraseAllKeys ((k, loc) :: rest) (pre.map locKey)).length =
          ((k, loc) :: rest).length - pre.length := by
        rw [length_eraseAllKeys hnd h3 hpresub]
        simp
      have hlen3 :
          (eraseLoc (eraseAllKeys ((k, loc) :: rest) (pre.map locKey)) k).length ≤
            fuel := by
        rw [length_eraseLoc hk2, hlen2]
        simp only [List.length_cons] at hlen ⊢
        omega
      obtain ⟨ihperm, ihent, ihpord⟩ := ih _ m0 hlen3 hnd0 hco0 hnc0 hnd3 hsub3
      have p1 : (keysOf ((k, loc) :: rest)).Perm
          (pre.map locKey ++ keysOf (eraseAllKeys ((k, loc) :: rest) (pre.map locKey))) :=
        keys_perm_eraseAllKeys hnd h3 hpresub
      have p2 : (keysOf (eraseAllKeys ((k, loc) :: rest) (pre.map locKey))).Perm
          (k :: keysOf (eraseLoc (eraseAllKeys ((k, loc) :: rest) (pre.map locKey)) k)) :=
        keys_perm_eraseLoc hk2
      refine ⟨?_, ?_, ?_⟩
      · rw [hdrain]
        have e1 : ((pre ++ [loc]) ++
            drain_locations fuel
              (eraseLoc (eraseAllKeys ((k, loc) :: rest) (pre.map locKey)) k)).map
              locKey =
            pre.map locKey ++ (k ::
              (drain_locations fuel
                (eraseLoc (eraseAllKeys ((k, loc) :: rest) (pre.map locKey)) k)).map
                locKey) := by
          simp [← hkloc]
        rw [e1]
        exact (List.Perm.append_left (pre.map locKey) (ihperm.cons k)).trans
          ((List.Perm.append_left (pre.map locKey) p2.symm).trans p1.symm)
      · rw [hdrain]
        intro x hx
        rcases List.mem_append.mp hx with hx | hx
        · rcases List.mem_append.mp hx with hx | hx
          · exact h2 x hx
          · have hxl : x = loc := by simpa using hx
            subst hxl
            rw [← hkloc]
            exact hlk
        · exact hsub3m _ _ (ihent x hx)
      · intro seen hseen
        rw [hdrain]
        have hmap : ∀ q, lookupLoc ((k, loc) :: rest) q = Option.none →
            q ∈ seen ∨ lookupLoc m0 q = Option.none := by
          intro q hq
          by_cases hq0 : q ∈ keysOf m0
          · exact Or.inl (hseen q hq0 (lookup_none_iff.mp hq))
          · exact Or.inr (lookup_none_iff.mpr hq0)
        have ha : POrd m0 seen (pre ++ [loc]) :=
          pord_lift (by simp) hmap h6
        have hb : POrd m0 ((pre ++ [loc]).map locKey ++ seen)
            (drain_locations fuel
              (eraseLoc (eraseAllKeys ((k, loc) :: rest) (pre.map locKey)) k)) := by
          refine ihpord _ ?_
          intro q hq0 hq3
          by_cases hqm : q ∈ keysOf ((k, loc) :: rest)
          · have hqc : q ∈ pre.map locKey ∨ q = k := by
              by_contra hcon
              push_neg at hcon
              apply hq3
              rw [mem_keys_eraseLoc hnd2, mem_keys_eraseAllKeys hnd]
              exact ⟨⟨hqm, hcon.1⟩, hcon.2⟩
            rcases hqc with h' | h'
            · refine List.mem_append.mpr (Or.inl ?_)
              rw [List.map_append]
              exact List.mem_append.mpr (Or.inl h')
            · subst h'
              refine List.mem_append.mpr (Or.inl ?_)
              rw [List.map_append]
              refine List.mem_append.mpr (Or.inr ?_)
              simp [hkloc]
          · exact List.mem_append.mpr (Or.inr (hseen q hq0 hqm))
        exact pord_append ha hb

lemma parse_stage_locations_ok {env : FedEnv} {es : List (String × PyVal)}
    {locs : LocMap} (h : parse_stage_locations env es = Except.ok locs) :
    NodupKeys locs ∧ KeyCoherent locs := by
  unfold parse_stage_locations at h
  cases h1 : _get_list_default (dictGet es "locations") with
  | error e =>
    rw [h1] at h
    exact absurd h (by simp)
  | ok l =>
    rw [h1] at h
    dsimp only at h
    cases h2 : parseList env.parse_location l with
    | error e =>
      rw [h2] at h
      exact absurd h (by simp)
    | ok ls =>
      rw [h2] at h
      dsimp only at h
      injection h with h'
      subst h'
      exact ⟨build_loc_map_nodup ls, build_loc_map_coherent ls⟩

/-- Claim C7: for the batch of parsed locations keyed by
(fed_id, component_uuid), once the earlier parse stages succeed: if the
in-batch parent-pointer graph has a cycle, update_shares raises the
cyclic-dependency error before importing anything (an error result carries
no import trace); if it is acyclic, update_shares succeeds, the drained
location imports cover every batch key exactly once (a permutation of the
batch keys), and every location whose declared parent belongs to the batch
is imported strictly after that parent, while parents outside the batch
are tolerated. -/
theorem claim7_location_graph :
    ∀ (env : FedEnv) (component : Component) (updates : PyVal)
      (es : List (String × PyVal)) (mis usrs ins ats acts lts : List PyVal)
      (locs : LocMap),
      _get_dict_mandatory updates = Except.ok es →
      _validate_header (dictGet es "header") component = Except.ok () →
      parse_stage_markdown_images env component es = Except.ok mis →
      parse_stage_users env component es = Except.ok usrs →
      parse_stage_instruments env es = Except.ok ins →
      parse_stage_action_types env es = Except.ok ats →
      parse_stage_actions env es = Except.ok acts →
      parse_stage_location_types env es = Except.ok lts →
      parse_stage_locations env es = Except.ok locs →
      ((hasCycleB locs = true →
          update_shares env component updates = Except.error FedErr.cyclicLocation) ∧
        (hasCycleB locs = false →
          ∀ objs, parse_stage_objects env component es = Except.ok objs →
            (update_shares env component updates =
                Except.ok (apply_shares mis usrs ins ats acts lts locs objs) ∧
              ((drain_locations locs.length locs).map locKey).Perm (keysOf locs) ∧
              (∀ (l₁ : List ParsedLocation) (x : ParsedLocation)
                  (l₂ : List ParsedLocation),
                drain_locations locs.length locs = l₁ ++ x :: l₂ →
                ∀ q, x.parent = some q → q ∈ keysOf locs →
                  q ∈ l₁.map locKey)))) := by
  intro env c u es mis usrs ins ats acts lts locs h1 h2 h3 h4 h5 h6 h7 h8 h9
  constructor
  · intro hcyc
    simp [update_shares, h1, h2, h3, h4, h5, h6, h7, h8, h9,
      locations_check_for_cyclic_dependencies, hcyc]
  · intro hcyc objs h10
    obtain ⟨hnd, hco⟩ := parse_stage_locations_ok h9
    have hnc : NoCycle locs := hasCycleB_false_noCycle hcyc
    obtain ⟨hperm, hent, hpord⟩ := drain_locations_spec locs.length locs locs
      (le_refl _) hnd hco hnc hnd (submap_refl _)
    refine ⟨?_, hperm, ?_⟩
    · simp [update_shares, h1, h2, h3, h4, h5, h6, h7, h8, h9,
        locations_check_for_cyclic_dependencies, hcyc, h10]
    · intro l₁ x l₂ heq q hq hqk
      have hp := hpord [] (fun q hq0 hq1 => absurd hq0 hq1)
      rcases pord_to_split hp l₁ x l₂ heq q hq with h' | h' | h'
      · exact h'
      · exact absurd h' (by simp)
      · exact absurd hqk (lookup_none_iff.mp h')

/-- Witness for claim C7: an acyclic concrete batch (location 1 with
in-batch parent 2, location 2 without parent) imports successfully with
its two keys drained exactly once, and the same batch with the parents
made circular fails with the cyclic-dependency error. -/
theorem claim7_witness :
    (update_shares envW ⟨"u", Option.none⟩
        (PyVal.dict [("locations",
          PyVal.list [PyVal.list [PyVal.int 1, PyVal.int 2], PyVal.int 2])]) =
      Except.ok (apply_shares [] [] [] [] [] []
        [((1, "c"), ⟨1, "c", some (2, "c")⟩), ((2, "c"), ⟨2, "c", Option.none⟩)]
        [])) ∧
    (((drain_locations 2
        [((1, "c"), ⟨1, "c", some (2, "c")⟩),
          ((2, "c"), ⟨2, "c", Option.none⟩)]).map locKey).Perm
      (keysOf [((1, "c"), ⟨1, "c", some (2, "c")⟩),
        ((2, "c"), ⟨2, "c", Option.none⟩)])) ∧
    (update_shares envW ⟨"u", Option.none⟩
        (PyVal.dict [("locations",
          PyVal.list [PyVal.list [PyVal.int 1, PyVal.int 2],
            PyVal.list [PyVal.int 2, PyVal.int 1]])]) =
      Except.error FedErr.cyclicLocation) := by
  have ha := claim7_location_graph envW ⟨"u", Option.none⟩
    (PyVal.dict [("locations",
      PyVal.list [PyVal.list [PyVal.int 1, PyVal.int 2], PyVal.int 2])])
    [("locations", PyVal.list [PyVal.list [PyVal.int 1, PyVal.int 2], PyVal.int 2])]
    [] [] [] [] [] []
    [((1, "c"), ⟨1, "c", some (2, "c")⟩), ((2, "c"), ⟨2, "c", Option.none⟩)]
    rfl rfl rfl rfl rfl rfl rfl rfl rfl
  have hb := claim7_location_graph envW ⟨"u", Option.none⟩
    (PyVal.dict [("locations",
      PyVal.list [PyVal.list [PyVal.int 1, PyVal.int 2],
        PyVal.list [PyVal.int 2, PyVal.int 1]])])
    [("locations", PyVal.list [PyVal.list [PyVal.int 1, PyVal.int 2],
      PyVal.list [PyVal.int 2, PyVal.int 1]])]
    [] [] [] [] [] []
    [((1, "c"), ⟨1, "c", some (2, "c")⟩), ((2, "c"), ⟨2, "c", some (1, "c")⟩)]
    rfl rfl rfl rfl rfl rfl rfl rfl rfl
  obtain ⟨he, hperm, _⟩ := ha.2 rfl [] rfl
  exact ⟨he, hperm, hb.1 rfl⟩

end Federation
